import Mathlib

/-!
Verification of the kinesis-db transactional record store.

This file gives a shallow embedding, in Lean 4, of the record-level core of
the engine: values, records, schemas, tables, the database, the transaction
structures, the engine operations (`get_record`, `insert_record`,
`delete_record`, commit / rollback), the transaction manager's lock table and
wait-for-graph deadlock detection, and the write-ahead log's JSON-line
entries with their SHA-256 content checksums.

Conventions of the embedding:
* Rust `u64`/`u32`/`usize` become `Nat`, `i64` becomes `Int`; `f64` payloads
  are modelled by rationals (`ℚ`), with `f64::EPSILON = 2^-52`; the
  non-finite doubles (NaN, infinities) are outside the model.
* `BTreeMap` becomes an association list kept sorted by key (insert replaces
  an existing entry in place, otherwise inserts in order); `HashMap` becomes
  an association list with replace-or-append insertion; `HashSet` becomes a
  duplicate-free list with insert-if-absent.
* Fallible Rust functions returning `Result<_, String>` become
  `Except String _`.
* Wall-clock reads (`SystemTime::now`) are passed in as explicit `Nat`
  timestamps, and transaction-expiry checks become explicit `Bool`
  parameters, so that the state machine stays pure.
* The external `regex` crate is abstracted by an explicit matching function
  `isMatch : String → String → Except String Bool` (the `Err` case models
  `Regex::new` failing on an invalid pattern); every theorem below is
  parametric in it.
* The page store / buffer pool layer is elided: the database is modelled at
  the record level, which is the granularity at which the claims below are
  stated.  WAL entries are modelled as the JSON values written to the log
  file, one list element per line.
-/

namespace KinesisDB

/-! ## Association-list maps (BTreeMap / HashMap models) -/

/-- Lookup in an association list (first matching key), the model of
`BTreeMap::get` and `HashMap::get`. -/
def alistGet {κ α : Type} [DecidableEq κ] (m : List (κ × α)) (k : κ) : Option α :=
  match m with
  | [] => none
  | (k', v) :: rest => if k = k' then some v else alistGet rest k

/-- Key-membership in an association list, the model of `contains_key`. -/
def alistContains {κ α : Type} [DecidableEq κ] (m : List (κ × α)) (k : κ) : Bool :=
  (alistGet m k).isSome

/-- HashMap insertion: replace the (first) existing entry, else append. -/
def hmInsert {κ α : Type} [DecidableEq κ] (m : List (κ × α)) (k : κ) (v : α) :
    List (κ × α) :=
  match m with
  | [] => [(k, v)]
  | (k', v') :: rest =>
    if k = k' then (k, v) :: rest else (k', v') :: hmInsert rest k v

/-- BTreeMap insertion for a linearly ordered key type: replace an existing
entry in place, otherwise insert at the sorted position (so that iteration
order is ascending by key, as for `BTreeMap`). -/
def btInsert {κ α : Type} [LinearOrder κ] (m : List (κ × α)) (k : κ) (v : α) :
    List (κ × α) :=
  match m with
  | [] => [(k, v)]
  | (k', v') :: rest =>
    if k < k' then (k, v) :: (k', v') :: rest
    else if k = k' then (k, v) :: rest
    else (k', v') :: btInsert rest k v

/-- BTreeMap removal (`remove`): drop the (first) entry with the given key. -/
def btRemove {κ α : Type} [DecidableEq κ] (m : List (κ × α)) (k : κ) :
    List (κ × α) :=
  match m with
  | [] => []
  | (k', v') :: rest => if k = k' then rest else (k', v') :: btRemove rest k

/-- Update the value at a key when present (`get_mut` followed by a write);
the map is unchanged when the key is absent. -/
def alistModify {κ α : Type} [DecidableEq κ] (m : List (κ × α)) (k : κ)
    (f : α → α) : List (κ × α) :=
  match m with
  | [] => []
  | (k', v') :: rest =>
    if k = k' then (k', f v') :: rest else (k', v') :: alistModify rest k f

/-! ## Values (`value_type.rs`) -/

/-- `ValueType`: a record field value.  `FloatV` carries the rational value
of a finite `f64`. -/
inductive ValueType : Type where
  | Str (s : String)
  | IntV (i : Int)
  | FloatV (q : ℚ)
  | BoolV (b : Bool)
deriving DecidableEq, Repr

/-- `f64::EPSILON` (= 2^-52), the tolerance used by `ValueType`'s
`PartialEq` on floats. -/
def f64Epsilon : ℚ := 1 / 2 ^ 52

/-- The `PartialEq` implementation of `ValueType`: structural on strings,
integers and booleans; floats compare equal when they differ by less than
`f64::EPSILON`. -/
def ValueType.beqRust : ValueType → ValueType → Bool
  | .Str a, .Str b => a = b
  | .IntV a, .IntV b => a = b
  | .BoolV a, .BoolV b => a = b
  | .FloatV a, .FloatV b => |a - b| < f64Epsilon
  | _, _ => false

/-! ## Records (`record.rs`) -/

/-- `Record`: id, field map (`HashMap<String, ValueType>`), MVCC version,
and commit timestamp. -/
structure Record : Type where
  id : Nat
  values : List (String × ValueType)
  version : Nat
  timestamp : Nat
deriving DecidableEq, Repr

/-- `Record::set_field`. -/
def Record.setField (r : Record) (field : String) (v : ValueType) : Record :=
  { r with values := hmInsert r.values field v }

/-! ## Schemas (`schema.rs`) -/

/-- `FieldType`. -/
inductive FieldType : Type where
  | String
  | Integer
  | Float
  | Boolean
deriving DecidableEq, Repr

/-- `FieldType::matches_value_type`: strict, except that `Float` also
accepts `Int` values. -/
def FieldType.matchesValueType : FieldType → ValueType → Bool
  | .String, .Str _ => true
  | .Integer, .IntV _ => true
  | .Float, .FloatV _ => true
  | .Float, .IntV _ => true
  | .Boolean, .BoolV _ => true
  | _, _ => false

/-- `FieldConstraint`.  `min`/`max` are `Option<f64>` modelled as rationals. -/
structure FieldConstraint : Type where
  fieldType : FieldType
  required : Bool
  min : Option ℚ
  max : Option ℚ
  pattern : Option String
  unique : Bool
  default : Option ValueType
deriving DecidableEq, Repr

/-- `f64::round` followed by `as usize`: round half away from zero, then
clamp negatives to zero.  For non-negative arguments this agrees with
Mathlib's `round` (round half up), and negative arguments clamp to `0`
either way, so `(round q).toNat` is a faithful model. -/
def roundToUsize (q : ℚ) : Nat := (round q).toNat

/-- Range check of a rational candidate against optional `min`/`max` bounds,
the shape shared by the `Integer`/`Float` arms of `validate`. -/
def checkNumericRange (x : ℚ) (minB maxB : Option ℚ)
    (lowMsg highMsg : String) : Except String Unit := do
  match minB with
  | some m => if x < m then Except.error lowMsg else pure ()
  | none => pure ()
  match maxB with
  | some m => if x > m then Except.error highMsg else pure ()
  | none => pure ()

/-- `FieldConstraint::validate`, parametric in the regex matcher. -/
def FieldConstraint.validate (isMatch : String → String → Except String Bool)
    (c : FieldConstraint) (v : ValueType) : Except String Unit := do
  if !c.fieldType.matchesValueType v then
    Except.error "Type mismatch"
  else
    match v, c.fieldType with
    | .Str s, .String => do
      match c.min with
      | some m =>
        if s.utf8ByteSize < roundToUsize m then
          Except.error "String length below minimum"
        else pure ()
      | none => pure ()
      match c.max with
      | some m =>
        if s.utf8ByteSize > roundToUsize m then
          Except.error "String length exceeds maximum"
        else pure ()
      | none => pure ()
      match c.pattern with
      | some p => do
        let b ← isMatch p s
        if b then pure () else Except.error "String does not match pattern"
      | none => pure ()
    | .IntV i, .Integer =>
      checkNumericRange (i : ℚ) c.min c.max
        "Integer below minimum" "Integer exceeds maximum"
    | .FloatV f, .Float =>
      checkNumericRange f c.min c.max
        "Float below minimum" "Float exceeds maximum"
    | .IntV i, .Float =>
      checkNumericRange (i : ℚ) c.min c.max
        "Integer below minimum" "Integer exceeds maximum"
    | _, _ => pure ()

/-- `TableSchema`. -/
structure TableSchema : Type where
  name : String
  fields : List (String × FieldConstraint)
  version : Nat
deriving DecidableEq, Repr

/-- First loop of `TableSchema::validate_record`: reject any field of the
candidate record that the schema does not declare — but only when the schema
declares at least one field. -/
def checkUnknownFields (schema : TableSchema) :
    List (String × ValueType) → Except String Unit
  | [] => Except.ok ()
  | (fieldName, _) :: rest =>
    if !alistContains schema.fields fieldName && schema.fields.length > 0 then
      Except.error ("Field '" ++ fieldName ++ "' is not defined in the schema for table '"
        ++ schema.name ++ "'")
    else checkUnknownFields schema rest

/-- Second loop of `TableSchema::validate_record`: every declared field is
either present and valid, or absent but not (required without default). -/
def checkDeclaredFields (isMatch : String → String → Except String Bool)
    (values : List (String × ValueType)) :
    List (String × FieldConstraint) → Except String Unit
  | [] => Except.ok ()
  | (fieldName, c) :: rest =>
    match alistGet values fieldName with
    | some v =>
      match c.validate isMatch v with
      | .ok _ => checkDeclaredFields isMatch values rest
      | .error e => .error e
    | none =>
      if c.required && c.default.isNone then
        Except.error ("Required field '" ++ fieldName ++ "' is missing")
      else checkDeclaredFields isMatch values rest

/-- `TableSchema::validate_record`. -/
def TableSchema.validateRecord (isMatch : String → String → Except String Bool)
    (schema : TableSchema) (values : List (String × ValueType)) :
    Except String Unit :=
  match checkUnknownFields schema values with
  | .error e => .error e
  | .ok _ => checkDeclaredFields isMatch values schema.fields

/-- The per-field compatibility loop of `TableSchema::can_migrate_from`,
iterating over the fields of the new schema. -/
def checkFieldCompat (old : TableSchema) :
    List (String × FieldConstraint) → Except String Unit
  | [] => Except.ok ()
  | (fieldName, nc) :: rest =>
    match alistGet old.fields fieldName with
    | some oc =>
      if oc.fieldType ≠ nc.fieldType then
        Except.error ("Cannot change type of existing field '" ++ fieldName ++ "'")
      else if !oc.required && nc.required && nc.default.isNone then
        Except.error ("Cannot make field '" ++ fieldName ++ "' required without default value")
      else if !oc.unique && nc.unique then
        Except.error ("Cannot add unique constraint to existing field '" ++ fieldName
          ++ "' without validation")
      else checkFieldCompat old rest
    | none =>
      if nc.required && nc.default.isNone then
        Except.error ("New required field '" ++ fieldName ++ "' must have a default value")
      else checkFieldCompat old rest

/-- `TableSchema::can_migrate_from` (called on the new schema, with the old
schema as argument). -/
def TableSchema.canMigrateFrom (newSchema old : TableSchema) :
    Except String Unit :=
  if newSchema.version ≤ old.version then
    Except.error "New schema version must be greater than the current version"
  else
    checkFieldCompat old newSchema.fields

/-! ## Tables (`table.rs`) -/

/-- `Table`: the records keyed by id (`BTreeMap<u64, Record>`, kept in
ascending id order) together with the table's schema. -/
structure Table : Type where
  data : List (Nat × Record)
  schema : TableSchema
deriving DecidableEq, Repr

/-- The default-application loop at the top of `Table::insert_record`: give
every schema field that is missing from the record and carries a default its
default value. -/
def applyDefaults (fields : List (String × FieldConstraint)) (r : Record) :
    Record :=
  match fields with
  | [] => r
  | (fieldName, c) :: rest =>
    let r' :=
      if !alistContains r.values fieldName then
        match c.default with
        | some d => r.setField fieldName d
        | none => r
      else r
    applyDefaults rest r'

/-- Inner loop of the unique check of `Table::insert_record`: scan the
existing records for a colliding value of field `fieldName`.  A collision is
an existing record with a different id whose value equals (Rust `==`) the
candidate value — unless that existing value equals the field's own declared
default. -/
def scanExistingForCollision (fieldName : String) (v : ValueType)
    (c : FieldConstraint) (recId : Nat) :
    List (Nat × Record) → Except String Unit
  | [] => Except.ok ()
  | (_, existing) :: rest =>
    if existing.id ≠ recId then
      match alistGet existing.values fieldName with
      | some ev =>
        if ev.beqRust v &&
            (c.default.isNone ||
              !(match c.default with
                | some d => ev.beqRust d
                | none => false)) then
          Except.error ("Unique constraint violation: value already exists for field '"
            ++ fieldName ++ "'")
        else scanExistingForCollision fieldName v c recId rest
      | none => scanExistingForCollision fieldName v c recId rest
    else scanExistingForCollision fieldName v c recId rest

/-- Outer loop of the unique check of `Table::insert_record`: for every
field of the (defaulted) record whose constraint is `unique`, scan the
existing records. -/
def uniqueCheck (schema : TableSchema) (data : List (Nat × Record))
    (recId : Nat) : List (String × ValueType) → Except String Unit
  | [] => Except.ok ()
  | (fieldName, v) :: rest =>
    match alistGet schema.fields fieldName with
    | some c =>
      if c.unique then
        match scanExistingForCollision fieldName v c recId data with
        | .ok _ => uniqueCheck schema data recId rest
        | .error e => .error e
      else uniqueCheck schema data recId rest
    | none => uniqueCheck schema data recId rest

/-- `Table::insert_record`: apply defaults, validate against the schema,
check unique constraints, then insert (replacing any record with the same
id). -/
def Table.insertRecord (isMatch : String → String → Except String Bool)
    (tbl : Table) (record : Record) : Except String Table :=
  let record := applyDefaults tbl.schema.fields record
  match tbl.schema.validateRecord isMatch record.values with
  | .error e => .error e
  | .ok _ =>
    match uniqueCheck tbl.schema tbl.data record.id record.values with
    | .error e => .error e
    | .ok _ => .ok { tbl with data := btInsert tbl.data record.id record }

/-- `Table::get_record`. -/
def Table.getRecord (tbl : Table) (id : Nat) : Option Record :=
  alistGet tbl.data id

/-- `Table::delete_record` (the updated table; the Rust function also
returns the removed record). -/
def Table.deleteRecord (tbl : Table) (id : Nat) : Table :=
  { tbl with data := btRemove tbl.data id }

/-! ## Database (`database.rs`, `type.rs`) -/

/-- `DatabaseType`. -/
inductive DatabaseType : Type where
  | OnDisk
  | Hybrid
  | InMemory
deriving DecidableEq, Repr

/-- `Database`: the storage-mode tag and the tables keyed by name
(`BTreeMap<String, Table>`). -/
structure Database : Type where
  dbType : DatabaseType
  tables : List (String × Table)
deriving DecidableEq, Repr

/-- Record lookup through the database: table by name, then record by id. -/
def Database.lookupRecord (db : Database) (tableName : String) (id : Nat) :
    Option Record :=
  (alistGet db.tables tableName).bind (fun tbl => tbl.getRecord id)

/-! ## Transactions (`transaction.rs`, as used by `database_engine.rs`) -/

/-- `IsolationLevel`. -/
inductive IsolationLevel : Type where
  | ReadUncommitted
  | ReadCommitted
  | RepeatableRead
  | Serializable
deriving DecidableEq, Repr

/-- `Transaction`.  `pendingTableCreates` holds plain table names, as the
engine file (`database_engine.rs`) produces and consumes them
(`create_table` pushes the name; `apply_transaction_changes` creates an
empty table per name).  The engine version embedded here carries no
`pending_updates` / `pending_schema_updates` processing, so those vectors
are omitted. -/
structure Transaction : Type where
  id : Nat
  isolationLevel : IsolationLevel
  pendingInserts : List (String × Record)
  pendingDeletes : List (String × Nat × Record)
  readSet : List (String × Nat × Nat)
  writeSet : List (String × Nat)
  snapshot : Option Database
  startTimestamp : Nat
  pendingTableCreates : List String
  pendingTableDrops : List String
deriving DecidableEq, Repr

/-! ## Transaction manager (`transaction_manager.rs`)

The wait-for graph `HashMap<u64, HashSet<u64>>` is modelled as an
association list from node to (duplicate-free) neighbour list. -/

/-- Neighbours of a node of the wait-for graph (`graph.get(&current)`,
empty when the node has no entry). -/
def graphNeighbors (g : List (Nat × List Nat)) (v : Nat) : List Nat :=
  (alistGet g v).getD []

/-- The keys of the wait-for graph. -/
def graphKeys (g : List (Nat × List Nat)) : List Nat := g.map Prod.fst

/-- Number of graph keys not yet visited — the termination measure of the
depth-first search. -/
def unvisitedKeyCount (g : List (Nat × List Nat)) (visited : List Nat) : Nat :=
  ((graphKeys g).filter (fun k => decide (k ∉ visited))).length

theorem mem_keys_of_alistGet_some {κ α : Type} [DecidableEq κ]
    {m : List (κ × α)} {k : κ} {v : α} (h : alistGet m k = some v) :
    k ∈ m.map Prod.fst := by
  induction m with
  | nil => simp [alistGet] at h
  | cons p rest ih =>
    rw [alistGet] at h
    by_cases hk : k = p.1
    · simp [hk]
    · simp only [hk, if_false] at h
      simp [ih h]

theorem length_filter_mono {α : Type} (l : List α) (p q : α → Bool)
    (h : ∀ a, p a = true → q a = true) :
    (l.filter p).length ≤ (l.filter q).length := by
  induction l with
  | nil => simp
  | cons a rest ih =>
    by_cases hp : p a = true
    · simp [List.filter, hp, h a hp]; omega
    · have : p a = false := by revert hp; cases p a <;> simp
      by_cases hq : q a = true
      · simp [List.filter, this, hq]; omega
      · have hq' : q a = false := by revert hq; cases q a <;> simp
        simp [List.filter, this, hq', ih]

theorem unvisitedKeyCount_le (g : List (Nat × List Nat))
    {v1 v2 : List Nat} (h : ∀ x ∈ v2, x ∈ v1) :
    unvisitedKeyCount g v1 ≤ unvisitedKeyCount g v2 := by
  apply length_filter_mono
  intro a ha
  simp only [decide_eq_true_eq] at ha ⊢
  exact fun hmem => ha (h a hmem)

theorem length_filter_unvisited_lt (l : List Nat) {n : Nat}
    {visited : List Nat} (hk : n ∈ l) (hv : n ∉ visited) :
    (l.filter (fun k => decide (k ∉ n :: visited))).length <
      (l.filter (fun k => decide (k ∉ visited))).length := by
  induction l with
  | nil => simp at hk
  | cons a rest ih =>
    have hmono : ((rest.filter fun k => decide (k ∉ n :: visited))).length ≤
        ((rest.filter fun k => decide (k ∉ visited))).length := by
      apply length_filter_mono
      intro x hx
      simp only [decide_eq_true_eq, List.mem_cons] at hx ⊢
      exact fun hmem => hx (Or.inr hmem)
    rcases List.mem_cons.mp hk with rfl | hmem
    · have h1 : ¬ (decide (n ∉ n :: visited) = true) := by simp
      have h2 : decide (n ∉ visited) = true := by simpa using hv
      have e1 : List.filter (fun k => decide (k ∉ n :: visited)) (n :: rest) =
          List.filter (fun k => decide (k ∉ n :: visited)) rest :=
        List.filter_cons_of_neg h1
      have e2 : List.filter (fun k => decide (k ∉ visited)) (n :: rest) =
          n :: List.filter (fun k => decide (k ∉ visited)) rest :=
        List.filter_cons_of_pos h2
      rw [e1, e2]
      exact Nat.lt_succ_of_le hmono
    · by_cases ha : a ∈ visited
      · have h1 : ¬ (decide (a ∉ n :: visited) = true) := by
          simp only [decide_eq_true_eq, Decidable.not_not, List.mem_cons]
          exact Or.inr ha
        have h2 : ¬ (decide (a ∉ visited) = true) := by
          simp only [decide_eq_true_eq, Decidable.not_not]
          exact ha
        have e1 : List.filter (fun k => decide (k ∉ n :: visited)) (a :: rest) =
            List.filter (fun k => decide (k ∉ n :: visited)) rest :=
          List.filter_cons_of_neg h1
        have e2 : List.filter (fun k => decide (k ∉ visited)) (a :: rest) =
            List.filter (fun k => decide (k ∉ visited)) rest :=
          List.filter_cons_of_neg h2
        rw [e1, e2]
        exact ih hmem
      · have h2 : decide (a ∉ visited) = true := by simpa using ha
        by_cases han : a = n
        · subst han
          have h1 : ¬ (decide (a ∉ a :: visited) = true) := by simp
          have e1 : List.filter (fun k => decide (k ∉ a :: visited)) (a :: rest) =
              List.filter (fun k => decide (k ∉ a :: visited)) rest :=
            List.filter_cons_of_neg h1
          have e2 : List.filter (fun k => decide (k ∉ visited)) (a :: rest) =
              a :: List.filter (fun k => decide (k ∉ visited)) rest :=
            List.filter_cons_of_pos h2
          rw [e1, e2]
          exact Nat.lt_succ_of_lt (ih hmem)
        · have h1 : decide (a ∉ n :: visited) = true := by
            simp only [decide_eq_true_eq, List.mem_cons]
            push_neg
            exact ⟨han, ha⟩
          have e1 : List.filter (fun k => decide (k ∉ n :: visited)) (a :: rest) =
              a :: List.filter (fun k => decide (k ∉ n :: visited)) rest :=
            List.filter_cons_of_pos h1
          have e2 : List.filter (fun k => decide (k ∉ visited)) (a :: rest) =
              a :: List.filter (fun k => decide (k ∉ visited)) rest :=
            List.filter_cons_of_pos h2
          rw [e1, e2]
          exact Nat.succ_lt_succ (ih hmem)

theorem unvisitedKeyCount_lt (g : List (Nat × List Nat)) {n : Nat}
    {visited : List Nat} (hk : n ∈ graphKeys g) (hv : n ∉ visited) :
    unvisitedKeyCount g (n :: visited) < unvisitedKeyCount g visited :=
  length_filter_unvisited_lt (graphKeys g) hk hv

theorem unvisitedKeyCount_cons_of_not_key (g : List (Nat × List Nat))
    {n : Nat} (visited : List Nat) (h : n ∉ graphKeys g) :
    unvisitedKeyCount g (n :: visited) = unvisitedKeyCount g visited := by
  unfold unvisitedKeyCount
  congr 1
  apply List.filter_congr
  intro k hk
  have hkn : k ≠ n := fun he => h (he ▸ hk)
  simp [List.mem_cons, hkn]

/-- The recursive core of `TransactionManager::has_deadlock`
(`detect_cycle`), written as a single recursion over the unexplored
neighbour list of the node on top of the depth-first stack.  `visited` is
the set of discovered nodes, `path` the current stack.  For each neighbour
`n`: if it is unvisited, recurse into its own neighbour list with `n`
pushed onto `visited` and `path` (the body of `detect_cycle`, whose
entry-guard `!visited.contains(&current)` is guaranteed here by the check
at the call site, exactly as in the Rust caller); if it is visited and on
the current path, a back edge — a cycle — is found.  The result carries the
final visited set together with the proof that it only grew, which is what
makes the recursion terminate. -/
def detectCycleFrom (g : List (Nat × List Nat)) (ns : List Nat)
    (visited path : List Nat) :
    { r : Bool × List Nat // ∀ x ∈ visited, x ∈ r.2 } :=
  match ns with
  | [] => ⟨(false, visited), fun _ hx => hx⟩
  | n :: rest =>
    if hn : n ∈ visited then
      if n ∈ path then ⟨(true, visited), fun _ hx => hx⟩
      else detectCycleFrom g rest visited path
    else
      let r1 := detectCycleFrom g (graphNeighbors g n) (n :: visited) (n :: path)
      if r1.val.1 then
        ⟨(true, r1.val.2), fun x hx => r1.property x (List.mem_cons_of_mem _ hx)⟩
      else
        let r2 := detectCycleFrom g rest r1.val.2 path
        ⟨r2.val, fun x hx =>
          r2.property x (r1.property x (List.mem_cons_of_mem _ hx))⟩
termination_by (unvisitedKeyCount g visited, ns.length)
decreasing_by
  · exact Prod.Lex.right _ (Nat.lt_succ_self _)
  · by_cases hk : n ∈ graphKeys g
    · exact Prod.Lex.left _ _ (unvisitedKeyCount_lt g hk hn)
    · have hnone : alistGet g n = none := by
        cases h : alistGet g n with
        | none => rfl
        | some v => exact absurd (mem_keys_of_alistGet_some h) hk
      have h1 : unvisitedKeyCount g (n :: visited) = unvisitedKeyCount g visited :=
        unvisitedKeyCount_cons_of_not_key g visited hk
      have h2 : graphNeighbors g n = [] := by simp [graphNeighbors, hnone]
      rw [h1, h2]
      exact Prod.Lex.right _ (by simp)
  · have hle : unvisitedKeyCount g r1.val.2 ≤ unvisitedKeyCount g visited := by
      apply unvisitedKeyCount_le
      intro x hx
      exact r1.property x (List.mem_cons_of_mem _ hx)
    rcases lt_or_eq_of_le hle with hlt | heq
    · exact Prod.Lex.left _ _ hlt
    · rw [heq]
      exact Prod.Lex.right _ (Nat.lt_succ_self _)

/-- `TransactionManager::has_deadlock`: depth-first search of the wait-for
graph from `txId`.  The top-level `detect_cycle(graph, tx_id, ∅, ∅)` call
starts with empty `visited`/`path`, immediately marks `tx_id` visited and
on the path, and walks its neighbour list, which is the root call of
`detectCycleFrom` below. -/
def hasDeadlock (g : List (Nat × List Nat)) (txId : Nat) : Bool :=
  (detectCycleFrom g (graphNeighbors g txId) [txId] [txId]).val.1

/-- The edge relation of the wait-for graph: `a` waits for `b`. -/
def Edge (g : List (Nat × List Nat)) (a b : Nat) : Prop :=
  b ∈ graphNeighbors g a

/-- The spec-side property `has_deadlock` is claimed to decide: some node
on a (directed) cycle is reachable from `s` in the wait-for graph. -/
def ReachesCycle (g : List (Nat × List Nat)) (s : Nat) : Prop :=
  ∃ v, Relation.ReflTransGen (Edge g) s v ∧ Relation.TransGen (Edge g) v v

/-- The depth-first-search path invariant: the path list (most recent node
first) starts at `s` and consecutive entries are joined by graph edges. -/
def pathFrom (g : List (Nat × List Nat)) (s : Nat) : List Nat → Prop
  | [] => False
  | [a] => a = s
  | a :: b :: rest => Edge g b a ∧ pathFrom g s (b :: rest)

/-- The completeness invariant of the search: every fully-explored node
(visited and off the current path) has fully-explored successors only and
lies on no cycle. -/
def Safe (g : List (Nat × List Nat)) (V P : List Nat) : Prop :=
  (∀ b ∈ V, b ∉ P → ∀ m ∈ graphNeighbors g b, m ∈ V ∧ m ∉ P) ∧
  (∀ b ∈ V, b ∉ P → ¬ Relation.TransGen (Edge g) b b)

/-- `HashSet::insert`: insert-if-absent. -/
def hsInsert (l : List Nat) (x : Nat) : List Nat :=
  if x ∈ l then l else l ++ [x]

/-- `TransactionConfig` (`transaction_config.rs`). -/
structure TransactionConfig : Type where
  timeoutSecs : Nat
  maxRetries : Nat
  deadlockDetectionIntervalMs : Nat
deriving DecidableEq, Repr

/-- The `Default` impl of `TransactionConfig`. -/
def TransactionConfig.defaultConfig : TransactionConfig :=
  { timeoutSecs := 30, maxRetries := 3, deadlockDetectionIntervalMs := 100 }

/-- `TransactionManager`: the lock table and the wait-for graph.  The
`active_transactions` map (wall-clock start times and shadow transactions,
used only for the real-time expiry checks) is elided; expiry is passed to
the engine operations as an explicit boolean. -/
structure TransactionManager : Type where
  locks : List ((String × Nat) × Nat)
  waitForGraph : List (Nat × List Nat)
  config : TransactionConfig
deriving DecidableEq, Repr

/-- `TransactionManager::has_deadlock`. -/
def TransactionManager.deadlocked (tm : TransactionManager) (txId : Nat) : Bool :=
  hasDeadlock tm.waitForGraph txId

/-- Remove a transaction from the wait-for graph, both as a source node and
from every edge set. -/
def removeTxFromGraph (g : List (Nat × List Nat)) (txId : Nat) :
    List (Nat × List Nat) :=
  (btRemove g txId).map (fun p => (p.1, p.2.filter (fun x => x ≠ txId)))

/-- `TransactionManager::acquire_lock`. -/
def TransactionManager.acquireLock (tm : TransactionManager) (txId : Nat)
    (tableName : String) (recordId : Nat) : Bool × TransactionManager :=
  match alistGet tm.locks (tableName, recordId) with
  | some holdingTx =>
    if holdingTx = txId then (true, tm)
    else if hasDeadlock tm.waitForGraph txId then (false, tm)
    else
      let s := (alistGet tm.waitForGraph txId).getD []
      let g' := hmInsert tm.waitForGraph txId (hsInsert s holdingTx)
      (false, { tm with waitForGraph := g' })
  | none => (true, { tm with locks := hmInsert tm.locks (tableName, recordId) txId })

/-- The retry loop of `TransactionManager::acquire_lock_with_retry`,
recursing on the remaining retry budget (the inter-attempt sleep is a pure
no-op here). -/
def acquireLockRetryLoop (txId : Nat) (tableName : String) (recordId : Nat) :
    Nat → TransactionManager → Bool × TransactionManager
  | 0, tm => (false, tm)
  | fuel + 1, tm =>
    let (ok, tm') := tm.acquireLock txId tableName recordId
    if ok then (true, tm')
    else if hasDeadlock tm'.waitForGraph txId then (false, tm')
    else acquireLockRetryLoop txId tableName recordId fuel tm'

/-- `TransactionManager::acquire_lock_with_retry`. -/
def TransactionManager.acquireLockWithRetry (tm : TransactionManager)
    (txId : Nat) (tableName : String) (recordId : Nat) :
    Bool × TransactionManager :=
  acquireLockRetryLoop txId tableName recordId tm.config.maxRetries tm

/-- `TransactionManager::release_lock`. -/
def TransactionManager.releaseLock (tm : TransactionManager) (txId : Nat)
    (tableName : String) (recordId : Nat) : TransactionManager :=
  match alistGet tm.locks (tableName, recordId) with
  | some holdingTx =>
    if holdingTx = txId then
      { tm with
        locks := btRemove tm.locks (tableName, recordId)
        waitForGraph := removeTxFromGraph tm.waitForGraph txId }
    else tm
  | none => tm

/-- `TransactionManager::end_transaction`: drop every lock held by the
transaction and remove it from the wait-for graph. -/
def TransactionManager.endTransaction (tm : TransactionManager) (txId : Nat) :
    TransactionManager :=
  { tm with
    locks := tm.locks.filter (fun p => p.2 ≠ txId)
    waitForGraph := removeTxFromGraph tm.waitForGraph txId }

/-! ## Engine record operations (`database_engine.rs`) -/

/-- `DBEngine::get_latest_record` (ReadUncommitted): the current record,
any timestamp. -/
def getLatestRecord (db : Database) (tableName : String) (id : Nat) :
    Option Record :=
  db.lookupRecord tableName id

/-- `DBEngine::get_committed_record` (ReadCommitted): the current record,
only if committed (`timestamp > 0`). -/
def getCommittedRecord (db : Database) (tableName : String) (id : Nat) :
    Option Record :=
  (db.lookupRecord tableName id).filter (fun rec => rec.timestamp > 0)

/-- `DBEngine::get_snapshot_record`. -/
def getSnapshotRecord (snapshot : Database) (tableName : String) (id : Nat) :
    Option Record :=
  snapshot.lookupRecord tableName id

/-- `DBEngine::get_record`.  `expired` is the result of the manager's
`is_transaction_expired` check.  Returns the record (if any) and the
transaction with its updated read set. -/
def DBEngine.getRecord (db : Database) (expired : Bool) (tx : Transaction)
    (tableName : String) (id : Nat) : Option Record × Transaction :=
  if expired then (none, tx)
  else
    let fromWriteSet : Option (Option Record) :=
      if (tableName, id) ∈ tx.writeSet then
        match tx.pendingInserts.find?
            (fun p => p.1 = tableName && p.2.id = id) with
        | some (_, record) => some (some record)
        | none =>
          if tx.pendingDeletes.any
              (fun p => p.1 = tableName && p.2.1 = id) then
            some none
          else none
      else none
    match fromWriteSet with
    | some result => (result, tx)
    | none =>
      let record :=
        match tx.isolationLevel with
        | .ReadUncommitted => getLatestRecord db tableName id
        | .ReadCommitted => getCommittedRecord db tableName id
        | .RepeatableRead | .Serializable =>
          match tx.snapshot with
          | some snapshot => getSnapshotRecord snapshot tableName id
          | none => getCommittedRecord db tableName id
      match record with
      | some rec =>
        if (tableName, id) ∉ tx.writeSet then
          (some rec, { tx with readSet := tx.readSet ++ [(tableName, id, rec.version)] })
        else (some rec, tx)
      | none => (none, tx)

/-- `DBEngine::insert_record`: when the target table does not exist in the
base database, the pending insert is still recorded (so that commit fails),
but the write set is not extended; otherwise both the write set and the
pending inserts grow. -/
def DBEngine.insertRecord (db : Database) (tx : Transaction)
    (tableName : String) (record : Record) : Transaction :=
  if !alistContains db.tables tableName then
    { tx with pendingInserts := tx.pendingInserts ++ [(tableName, record)] }
  else
    { tx with
      writeSet := tx.writeSet ++ [(tableName, record.id)]
      pendingInserts := tx.pendingInserts ++ [(tableName, record)] }

/-- The back half of `DBEngine::delete_record`, reached once the row lock
is held: snapshot the current record into `pending_deletes` and extend the
write set — only when the record currently exists in the base database. -/
def recordPendingDelete (db : Database) (tx : Transaction)
    (tableName : String) (id : Nat) : Transaction :=
  match (alistGet db.tables tableName).bind (fun tbl => tbl.getRecord id) with
  | some oldRec =>
    { tx with
      writeSet := tx.writeSet ++ [(tableName, id)]
      pendingDeletes := tx.pendingDeletes ++ [(tableName, id, oldRec)] }
  | none => tx

/-- `DBEngine::delete_record`: row lock with deadlock-aware retry, then
record the pending delete.  On lock failure with a detected deadlock, only
the write set is extended (so that commit fails); on plain lock failure
after the second attempt, the transaction is unchanged. -/
def DBEngine.deleteRecord (db : Database) (tm : TransactionManager)
    (tx : Transaction) (tableName : String) (id : Nat) :
    Transaction × TransactionManager :=
  let (ok1, tm1) := tm.acquireLockWithRetry tx.id tableName id
  if !ok1 then
    if hasDeadlock tm1.waitForGraph tx.id then
      ({ tx with writeSet := tx.writeSet ++ [(tableName, id)] }, tm1)
    else
      let (ok2, tm2) := tm1.acquireLockWithRetry tx.id tableName id
      if !ok2 then (tx, tm2)
      else (recordPendingDelete db tx tableName id, tm2)
  else (recordPendingDelete db tx tableName id, tm1)

/-! ## Commit path (`database_engine.rs`, `commit_guard.rs`) -/

/-- ReadCommitted validation: no record named by the read set may have a
version above the one recorded (missing tables or records pass). -/
def validateReadCommitted (db : Database) (tx : Transaction) : Bool :=
  tx.readSet.all (fun e =>
    match db.lookupRecord e.1 e.2.1 with
    | some rec => !(rec.version > e.2.2)
    | none => true)

/-- `DBEngine::validate_repeatable_read`: every record of the read set must
still exist, in a still-existing table, with exactly the recorded version. -/
def validateRepeatableRead (db : Database) (tx : Transaction) : Bool :=
  tx.readSet.all (fun e =>
    match alistGet db.tables e.1 with
    | some tbl =>
      match tbl.getRecord e.2.1 with
      | some rec => rec.version = e.2.2
      | none => false
    | none => false)

/-- The phantom check of `DBEngine::validate_serializable`: with a snapshot
present, every current table must agree with the snapshot on record counts
and per-record versions, and a table absent from the snapshot must be
empty. -/
def validateNoPhantoms (db : Database) (tx : Transaction) : Bool :=
  match tx.snapshot with
  | none => true
  | some snapshot =>
    db.tables.all (fun p =>
      match alistGet snapshot.tables p.1 with
      | some snapTable =>
        p.2.data.length = snapTable.data.length &&
          p.2.data.all (fun q =>
            match alistGet snapTable.data q.1 with
            | some snapRec => q.2.version = snapRec.version
            | none => false)
      | none => p.2.data.isEmpty)

/-- `DBEngine::validate_serializable`: repeatable-read conditions, no write
to a record committed after the transaction started, and no phantoms. -/
def validateSerializable (db : Database) (tx : Transaction) : Bool :=
  validateRepeatableRead db tx &&
    tx.writeSet.all (fun w =>
      match db.lookupRecord w.1 w.2 with
      | some rec => !(rec.timestamp > tx.startTimestamp)
      | none => true) &&
    validateNoPhantoms db tx

/-- `DBEngine::validate_transaction`. -/
def DBEngine.validateTransaction (db : Database) (tx : Transaction) :
    Except String Unit :=
  match tx.isolationLevel with
  | .ReadUncommitted => Except.ok ()
  | .ReadCommitted =>
    if validateReadCommitted db tx then Except.ok ()
    else Except.error "Read committed violation: record modified"
  | .RepeatableRead =>
    if validateRepeatableRead db tx then Except.ok ()
    else Except.error "Repeatable read violation detected"
  | .Serializable =>
    if validateSerializable db tx then Except.ok ()
    else Except.error "Serialization conflict detected"

/-- Modelled from the spec: the no-argument `Table::new()` called by this
engine file for `pending_table_creates` is not among the sources (the
`table.rs` in the tree takes a schema); per the specification, a table
created by name alone is schema-less, i.e. its schema declares zero
fields. -/
def emptyTable : Table :=
  { data := [], schema := { name := "", fields := [], version := 0 } }

/-- Table drops of `apply_transaction_changes` (the page-id bookkeeping of
the elided disk layer is omitted). -/
def applyDrops (db : Database) (drops : List String) : Database :=
  drops.foldl (fun d t => { d with tables := btRemove d.tables t }) db

/-- Record deletes of `apply_transaction_changes`: remove each pending
delete's record from its table, when the table exists. -/
def applyDeletes (db : Database) (dels : List (String × Nat × Record)) :
    Database :=
  dels.foldl
    (fun d e =>
      { d with tables := alistModify d.tables e.1 (fun tbl => tbl.deleteRecord e.2.1) })
    db

/-- Table creates of `apply_transaction_changes`
(`tables.entry(name).or_insert(Table::new())`). -/
def applyCreates (db : Database) (creates : List String) : Database :=
  creates.foldl
    (fun d t =>
      if alistContains d.tables t then d
      else { d with tables := btInsert d.tables t emptyTable })
    db

/-- Pending-insert processing of `apply_transaction_changes`: bump the
version, stamp the commit timestamp, and insert through
`Table::insert_record` (whose own `Result` is discarded); a missing target
table aborts with the `Table not found` error, leaving the earlier part of
the batch applied. -/
def applyInserts (isMatch : String → String → Except String Bool)
    (timestamp : Nat) (db : Database) :
    List (String × Record) → Database × Option String
  | [] => (db, none)
  | (tableName, record) :: rest =>
    let record' := { record with version := record.version + 1, timestamp := timestamp }
    match alistGet db.tables tableName with
    | some tbl =>
      let tbl' :=
        match tbl.insertRecord isMatch record' with
        | .ok t => t
        | .error _ => tbl
      applyInserts isMatch timestamp
        { db with tables := hmInsert db.tables tableName tbl' } rest
    | none => (db, some ("Table not found: " ++ tableName))

/-- `DBEngine::apply_transaction_changes`: drops, then deletes, then
creates, then inserts, mutating the database in place; an error from the
insert phase leaves the prefix of the changes applied. -/
def applyTransactionChanges (isMatch : String → String → Except String Bool)
    (db : Database) (tx : Transaction) (timestamp : Nat) :
    Database × Option String :=
  let db1 := applyDrops db tx.pendingTableDrops
  let db2 := applyDeletes db1 tx.pendingDeletes
  let db3 := applyCreates db2 tx.pendingTableCreates
  applyInserts isMatch timestamp db3 tx.pendingInserts

/-- Lock-acquisition loop at the head of `commit_internal`. -/
def acquireAllLocks (tm : TransactionManager) (txId : Nat) :
    List (String × Nat) → Bool × TransactionManager
  | [] => (true, tm)
  | (tableName, id) :: rest =>
    let (ok, tm') := tm.acquireLockWithRetry txId tableName id
    if ok then acquireAllLocks tm' txId rest else (false, tm')

/-- Lock-release loop at the tail of `commit_internal` /
`rollback_failed_commit`. -/
def releaseAllLocks (tm : TransactionManager) (txId : Nat)
    (ws : List (String × Nat)) : TransactionManager :=
  ws.foldl (fun m e => m.releaseLock txId e.1 e.2) tm

/-- The engine-external inputs of a commit: the expiry status of the
transaction, the wall clock at apply time, and the outcome of the
persistence steps (WAL append and sync, `save_to_disk_with_verification`,
`mark_transaction_complete`) taken by the non-`InMemory` modes — `none`
for success.  For `InMemory` databases those steps are skipped. -/
structure CommitEnv : Type where
  expired : Bool
  now : Nat
  persistResult : Option String
deriving DecidableEq, Repr

/-- `DBEngine::commit_internal`.  (`cleanup_expired_transactions` is a
no-op here: no other transaction's expiry is modelled.) -/
def DBEngine.commitInternal (isMatch : String → String → Except String Bool)
    (db : Database) (tm : TransactionManager) (tx : Transaction)
    (env : CommitEnv) : Database × TransactionManager × Option String :=
  if env.expired then (db, tm.endTransaction tx.id, some "Transaction timeout")
  else if hasDeadlock tm.waitForGraph tx.id then
    (db, tm.endTransaction tx.id, some "Deadlock detected")
  else
    let (locked, tm1) := acquireAllLocks tm tx.id tx.writeSet
    if !locked then (db, tm1.endTransaction tx.id, some "Failed to acquire lock")
    else
      let (db', res) :=
        match DBEngine.validateTransaction db tx with
        | .error e => (db, some e)
        | .ok _ =>
          match applyTransactionChanges isMatch db tx env.now with
          | (db2, some e) => (db2, some e)
          | (db2, none) =>
            if db2.dbType = .InMemory then (db2, none)
            else (db2, env.persistResult)
      let tm2 := releaseAllLocks tm1 tx.id tx.writeSet
      (db', tm2.endTransaction tx.id, res)

/-- One step of the restore loop of `DBEngine::rollback_failed_commit`: for
a write-set entry whose prior record exists in the transaction's snapshot,
re-insert that record into the base database (through
`Table::insert_record`, whose `Result` is discarded), provided the table
still exists. -/
def rollbackStep (isMatch : String → String → Except String Bool)
    (tx : Transaction) (db : Database) (e : String × Nat) : Database :=
  match tx.snapshot with
  | some snapshot =>
    match (alistGet snapshot.tables e.1).bind (fun t => t.getRecord e.2) with
    | some snapshotRecord =>
      match alistGet db.tables e.1 with
      | some tbl =>
        let tbl' :=
          match tbl.insertRecord isMatch snapshotRecord with
          | .ok t => t
          | .error _ => tbl
        { db with tables := hmInsert db.tables e.1 tbl' }
      | none => db
    | none => db
  | none => db

/-- `DBEngine::rollback_failed_commit`: restore the snapshot record of
every write-set entry, then release the transaction's locks and end it.
Its callers are the public `DBEngine::rollback`, whose body it is, and
`CommitGuard::drop` — but only when the guard still holds its transaction,
which a guard whose `commit` ran never does. -/
def DBEngine.rollbackFailedCommit
    (isMatch : String → String → Except String Bool) (db : Database)
    (tm : TransactionManager) (tx : Transaction) :
    Database × TransactionManager :=
  let db' := tx.writeSet.foldl (rollbackStep isMatch tx) db
  ((db', (releaseAllLocks tm tx.id tx.writeSet).endTransaction tx.id) :
    Database × TransactionManager)

/-- `CommitGuard` (`commit_guard.rs`): the optional transaction, consumed
by `commit`, and the success flag consulted by `Drop`.  (The engine
reference is the state threaded through the operations below.) -/
structure CommitGuard : Type where
  tx : Option Transaction
  success : Bool

/-- `CommitGuard::commit`: take the transaction out of the guard
(`self.tx.take()` leaves `none` behind), run `commit_internal` on it and
record whether it succeeded; with the transaction already consumed, fail
without touching the state. -/
def commitGuardCommit (isMatch : String → String → Except String Bool)
    (db : Database) (tm : TransactionManager) (g : CommitGuard)
    (env : CommitEnv) :
    Database × TransactionManager × Option String × CommitGuard :=
  match g.tx with
  | some tx =>
    let r := DBEngine.commitInternal isMatch db tm tx env
    (r.1, r.2.1, r.2.2, CommitGuard.mk none r.2.2.isNone)
  | none => (db, tm, some "Transaction already consumed", g)

/-- `CommitGuard`'s `Drop` impl: on an unsuccessful guard that still holds
its transaction, invoke `rollback_failed_commit`; otherwise do nothing. -/
def commitGuardDrop (isMatch : String → String → Except String Bool)
    (db : Database) (tm : TransactionManager) (g : CommitGuard) :
    Database × TransactionManager :=
  if g.success then (db, tm)
  else
    match g.tx with
    | some tx => DBEngine.rollbackFailedCommit isMatch db tm tx
    | none => (db, tm)

/-- `DBEngine::commit` is `CommitGuard::new(self, tx).commit()`: the guard
is created holding the transaction, `commit` consumes it and runs
`commit_internal`, and the guard is dropped when `commit` returns.
Because `commit` took the transaction out, the `Drop` impl finds `none`
whether or not the commit succeeded, so a failed commit is left exactly as
`commit_internal`'s failure left it. -/
def DBEngine.commit (isMatch : String → String → Except String Bool)
    (db : Database) (tm : TransactionManager) (tx : Transaction)
    (env : CommitEnv) : Database × TransactionManager × Option String :=
  let s1 := commitGuardCommit isMatch db tm (CommitGuard.mk (some tx) false) env
  let s2 := commitGuardDrop isMatch s1.1 s1.2.1 s1.2.2.2
  (s2.1, s2.2, s1.2.2.1)

/-! ## SHA-256 (the `sha2` crate's `Sha256`), over byte lists -/

/-- 32-bit truncating addition. -/
def add32 (a b : Nat) : Nat := (a + b) % 4294967296

/-- 32-bit right rotation. -/
def rotr32 (n x : Nat) : Nat :=
  ((x >>> n) ||| (x <<< (32 - n))) % 4294967296

/-- 32-bit bitwise complement. -/
def not32 (x : Nat) : Nat := Nat.xor x 4294967295

/-- The 64 SHA-256 round constants (FIPS 180-4), stored as 32 packed
64-bit pairs — entry `2i` of the result is the high word of pair `i`,
entry `2i+1` the low word. -/
def sha256K : List Nat :=
  ([0x428a2f9871374491, 0xb5c0fbcfe9b5dba5, 0x3956c25b59f111f1,
   0x923f82a4ab1c5ed5, 0xd807aa9812835b01, 0x243185be550c7dc3,
   0x72be5d7480deb1fe, 0x9bdc06a7c19bf174, 0xe49b69c1efbe4786,
   0x0fc19dc6240ca1cc, 0x2de92c6f4a7484aa, 0x5cb0a9dc76f988da,
   0x983e5152a831c66d, 0xb00327c8bf597fc7, 0xc6e00bf3d5a79147,
   0x06ca635114292967, 0x27b70a852e1b2138, 0x4d2c6dfc53380d13,
   0x650a7354766a0abb, 0x81c2c92e92722c85, 0xa2bfe8a1a81a664b,
   0xc24b8b70c76c51a3, 0xd192e819d6990624, 0xf40e3585106aa070,
   0x19a4c1161e376c08, 0x2748774c34b0bcb5, 0x391c0cb34ed8aa4a,
   0x5b9cca4f682e6ff3, 0x748f82ee78a5636f, 0x84c878148cc70208,
   0x90befffaa4506ceb, 0xbef9a3f7c67178f2]
    : List Nat).flatMap (fun p => [p >>> 32, p % 2 ^ 32])

/-- The SHA-256 initial hash state, stored likewise as four 64-bit pairs. -/
def sha256H0 : List Nat :=
  ([0x6a09e667bb67ae85, 0x3c6ef372a54ff53a,
   0x510e527f9b05688c, 0x1f83d9ab5be0cd19]
    : List Nat).flatMap (fun p => [p >>> 32, p % 2 ^ 32])

/-- Big-endian byte decomposition of a number, `k` bytes wide. -/
def natToBytesBE (k n : Nat) : List Nat :=
  (List.range k).map (fun i => (n >>> (8 * (k - 1 - i))) % 256)

/-- SHA-256 message padding: a `0x80` byte, zeros to 56 mod 64, and the
bit length as eight big-endian bytes. -/
def sha256Pad (msg : List Nat) : List Nat :=
  let len := msg.length
  let zeros := (120 - ((len + 1) % 64)) % 64
  msg ++ [0x80] ++ List.replicate zeros 0 ++ natToBytesBE 8 (len * 8)

/-- Split a byte list into 64-byte blocks. -/
def chunks64 : List Nat → List (List Nat)
  | [] => []
  | b :: rest => ((b :: rest).take 64) :: chunks64 ((b :: rest).drop 64)
termination_by l => l.length
decreasing_by simp; omega

/-- The sixteen 32-bit big-endian words of one 64-byte block. -/
def blockWords (block : List Nat) : List Nat :=
  (List.range 16).map (fun i =>
    (block.getD (4 * i) 0) * 16777216 + (block.getD (4 * i + 1) 0) * 65536 +
      (block.getD (4 * i + 2) 0) * 256 + block.getD (4 * i + 3) 0)

/-- Message-schedule extension to 64 words. -/
def sha256Schedule (w16 : List Nat) : List Nat :=
  (List.range 48).foldl
    (fun w _ =>
      let s0 :=
        Nat.xor (Nat.xor (rotr32 7 (w.getD (w.length - 15) 0))
          (rotr32 18 (w.getD (w.length - 15) 0))) ((w.getD (w.length - 15) 0) >>> 3)
      let s1 :=
        Nat.xor (Nat.xor (rotr32 17 (w.getD (w.length - 2) 0))
          (rotr32 19 (w.getD (w.length - 2) 0))) ((w.getD (w.length - 2) 0) >>> 10)
      w ++ [add32 (add32 (w.getD (w.length - 16) 0) s0)
              (add32 (w.getD (w.length - 7) 0) s1)])
    w16

/-- One SHA-256 compression round. -/
def sha256Round (st : List Nat) (kw : Nat × Nat) : List Nat :=
  let a := st.getD 0 0
  let b := st.getD 1 0
  let c := st.getD 2 0
  let d := st.getD 3 0
  let e := st.getD 4 0
  let f := st.getD 5 0
  let g := st.getD 6 0
  let h := st.getD 7 0
  let s1 := Nat.xor (Nat.xor (rotr32 6 e) (rotr32 11 e)) (rotr32 25 e)
  let ch := Nat.xor (Nat.land e f) (Nat.land (not32 e) g)
  let temp1 := add32 (add32 (add32 h s1) (add32 ch kw.1)) kw.2
  let s0 := Nat.xor (Nat.xor (rotr32 2 a) (rotr32 13 a)) (rotr32 22 a)
  let maj := Nat.xor (Nat.xor (Nat.land a b) (Nat.land a c)) (Nat.land b c)
  let temp2 := add32 s0 maj
  [add32 temp1 temp2, a, b, c, add32 d temp1, e, f, g]

/-- SHA-256 compression of one block onto the running hash state. -/
def sha256Compress (hs : List Nat) (block : List Nat) : List Nat :=
  let w := sha256Schedule (blockWords block)
  let st := (sha256K.zip w).foldl (fun s kw => sha256Round s kw) hs
  (List.range 8).map (fun i => add32 (hs.getD i 0) (st.getD i 0))

/-- SHA-256 digest (32 bytes) of a byte list. -/
def sha256Bytes (msg : List Nat) : List Nat :=
  ((chunks64 (sha256Pad msg)).foldl sha256Compress sha256H0).foldr
    (fun w acc => natToBytesBE 4 w ++ acc) []

/-- UTF-8 encoding of a character. -/
def charUtf8 (c : Char) : List Nat :=
  let n := c.toNat
  if n < 0x80 then [n]
  else if n < 0x800 then [0xC0 ||| (n >>> 6), 0x80 ||| (n &&& 0x3F)]
  else if n < 0x10000 then
    [0xE0 ||| (n >>> 12), 0x80 ||| ((n >>> 6) &&& 0x3F), 0x80 ||| (n &&& 0x3F)]
  else
    [0xF0 ||| (n >>> 18), 0x80 ||| ((n >>> 12) &&& 0x3F),
     0x80 ||| ((n >>> 6) &&& 0x3F), 0x80 ||| (n &&& 0x3F)]

/-- UTF-8 bytes of a string (`str::as_bytes`). -/
def strUtf8Bytes (s : String) : List Nat := s.data.flatMap charUtf8

/-- `u64::from_be_bytes(hash[..8])`: the first eight digest bytes read
big-endian — the checksum truncation used across the engine. -/
def first8BE (digest : List Nat) : Nat :=
  (digest.take 8).foldl (fun acc b => acc * 256 + b) 0

/-- SHA-256 of a string, truncated to its first eight bytes big-endian. -/
def sha256First8 (s : String) : Nat := first8BE (sha256Bytes (strUtf8Bytes s))

/-! ## JSON values (`serde_json::Value`) and the WAL (`wal.rs`) -/

/-- A JSON value.  Numbers are restricted to the unsigned integers the WAL
writes (`u64` ids, timestamps, checksums). -/
inductive Json : Type where
  | null
  | boolVal (b : Bool)
  | num (n : Nat)
  | str (s : String)
  | arr (elems : List Json)
  | obj (kvs : List (String × Json))

/-- JSON string escaping as `serde_json` performs it: quote and backslash
get two-character escapes, other control characters the `\u00XX` form
(with the conventional short forms for backspace, form feed, newline,
carriage return and tab). -/
def jsonEscapeChar (c : Char) : String :=
  if c = '"' then "\\\""
  else if c = '\\' then "\\\\"
  else if c = Char.ofNat 8 then "\\b"
  else if c = Char.ofNat 12 then "\\f"
  else if c = '\n' then "\\n"
  else if c = '\r' then "\\r"
  else if c = '\t' then "\\t"
  else if c.toNat < 32 then
    let hex := fun (n : Nat) =>
      if n < 10 then String.singleton (Char.ofNat (48 + n))
      else String.singleton (Char.ofNat (87 + n))
    "\\u00" ++ hex (c.toNat / 16) ++ hex (c.toNat % 16)
  else String.singleton c

/-- Escape a whole string. -/
def jsonEscape (s : String) : String :=
  s.data.foldl (fun acc c => acc ++ jsonEscapeChar c) ""

mutual

/-- Compact serialization of a JSON value (`serde_json::Value::to_string`):
no whitespace, object keys in the order stored. -/
def Json.render : Json → String
  | .null => "null"
  | .boolVal true => "true"
  | .boolVal false => "false"
  | .num n => toString n
  | .str s => "\"" ++ jsonEscape s ++ "\""
  | .arr elems => "[" ++ Json.renderList elems ++ "]"
  | .obj kvs => "\x7b" ++ Json.renderKvs kvs ++ "\x7d"

/-- Comma-separated rendering of array elements. -/
def Json.renderList : List Json → String
  | [] => ""
  | [x] => Json.render x
  | x :: y :: rest => Json.render x ++ "," ++ Json.renderList (y :: rest)

/-- Comma-separated rendering of object entries. -/
def Json.renderKvs : List (String × Json) → String
  | [] => ""
  | [(k, v)] => "\"" ++ jsonEscape k ++ "\":" ++ Json.render v
  | (k, v) :: q :: rest =>
    "\"" ++ jsonEscape k ++ "\":" ++ Json.render v ++ "," ++
      Json.renderKvs (q :: rest)

end

/-- The fields of a JSON object (`as_object`; non-objects, on which the
Rust code would panic, give the empty list — the WAL only ever stores
objects). -/
def Json.objFields : Json → List (String × Json)
  | .obj kvs => kvs
  | _ => []

/-- `serde_json`'s index operator `entry["key"]`: the value at the key, or
`Null` when absent or not an object. -/
def jsonGet (j : Json) (k : String) : Json :=
  match j with
  | .obj kvs => (alistGet kvs k).getD .null
  | _ => .null

/-- `Value::as_u64`. -/
def Json.asNat : Json → Option Nat
  | .num n => some n
  | _ => none

/-- `Value::as_str`. -/
def Json.asStr : Json → Option String
  | .str s => some s
  | _ => none

/-- Code-point-wise string comparison (`Ord for String` in Rust is
byte-lexicographic; on the ASCII keys of WAL entries the two coincide). -/
def charListLe : List Char → List Char → Bool
  | [], _ => true
  | _ :: _, [] => false
  | a :: as, b :: bs =>
    if a.toNat < b.toNat then true
    else if a.toNat = b.toNat then charListLe as bs
    else false

/-- `a <= b` on strings, by code points. -/
def strLe (a b : String) : Bool := charListLe a.data b.data

/-- Insertion into a key-sorted entry list (`BTreeMap::insert` for a key
not yet present — `serde_json::Map` is backed by a `BTreeMap`, so keys sit
in sorted order). -/
def insertSortedByKey (p : String × Json) :
    List (String × Json) → List (String × Json)
  | [] => [p]
  | q :: rest =>
    if strLe p.1 q.1 then p :: q :: rest else q :: insertSortedByKey p rest

/-- Sort an entry list by key — the `keys.sort()` + rebuild step of
`calculate_entry_checksum`. -/
def sortByKey (l : List (String × Json)) : List (String × Json) :=
  l.foldr insertSortedByKey []

/-- The fields that enter the canonical (hashed) form of a WAL entry:
everything except `checksum` and `status`. -/
def canonicalKeep (p : String × Json) : Bool :=
  p.1 ≠ "checksum" && p.1 ≠ "status"

/-- `WriteAheadLog::calculate_entry_checksum`: drop the `checksum` and
`status` fields, sort the remaining keys, serialize canonically, hash with
SHA-256 and keep the first eight bytes big-endian. -/
def calculateEntryChecksum (entry : Json) : Nat :=
  sha256First8 (Json.render
    (.obj (sortByKey (entry.objFields.filter canonicalKeep))))

/-- The JSON-level payload of a transaction as `log_transaction` writes it:
the transaction id, the wall-clock timestamp taken at logging time, and the
`serde` JSON encodings of the five pending-operation vectors, carried
opaquely (their internal structure is irrelevant to the log's bookkeeping). -/
structure TxLogData : Type where
  txId : Nat
  timestamp : Nat
  tableCreates : Json
  tableDrops : Json
  schemaUpdates : Json
  inserts : Json
  deletes : Json

/-- The entry assembled by the `json!` literal in `log_transaction`, before
the checksum is added.  `serde_json::Map` is a `BTreeMap`, so the keys
already sit in sorted order. -/
def mkWalEntryBase (d : TxLogData) : List (String × Json) :=
  [("deletes", d.deletes), ("inserts", d.inserts),
   ("schema_updates", d.schemaUpdates), ("status", .str "pending"),
   ("table_creates", d.tableCreates), ("table_drops", d.tableDrops),
   ("timestamp", .num d.timestamp), ("tx_id", .num d.txId)]

/-- The complete WAL entry for a transaction: the base entry with the
computed checksum inserted. -/
def mkWalEntry (d : TxLogData) : Json :=
  .obj (insertSortedByKey
    ("checksum", .num (calculateEntryChecksum (.obj (mkWalEntryBase d))))
    (mkWalEntryBase d))

/-- `WriteAheadLog::log_transaction`: append the entry (status `pending`,
checksum computed over the canonical form) as a new line; returns the new
log and the computed checksum. -/
def logTransaction (wal : List Json) (d : TxLogData) : List Json × Nat :=
  (wal ++ [mkWalEntry d], calculateEntryChecksum (.obj (mkWalEntryBase d)))

/-- Value replacement at a key of a JSON object
(`entry["status"] = json!("completed")`): replace when present, insert in
key order when absent; non-objects are left unchanged. -/
def jsonSetKey (j : Json) (k : String) (v : Json) : Json :=
  match j with
  | .obj kvs =>
    if alistContains kvs k then
      .obj (kvs.map (fun p => if p.1 = k then (p.1, v) else p))
    else .obj (insertSortedByKey (k, v) kvs)
  | other => other

/-- `WriteAheadLog::mark_transaction_complete`: rewrite the log with the
status of every entry of the transaction set to `completed`; an error when
no entry matches. -/
def markTransactionComplete (wal : List Json) (txId : Nat) :
    Except String (List Json) :=
  if !(wal.any (fun e => (jsonGet e "tx_id").asNat = some txId)) then
    Except.error ("Transaction " ++ toString txId ++ " not found in WAL")
  else
    Except.ok (wal.map (fun e =>
      if (jsonGet e "tx_id").asNat = some txId then
        jsonSetKey e "status" (.str "completed")
      else e))

/-- `WriteAheadLog::is_transaction_valid`: re-read the first entry of the
transaction and compare its stored checksum against the recomputed one. -/
def isTransactionValid (wal : List Json) (txId : Nat) : Except String Bool :=
  match wal.find? (fun e => (jsonGet e "tx_id").asNat = some txId) with
  | some entry =>
    match (jsonGet entry "checksum").asNat with
    | some stored => Except.ok (calculateEntryChecksum entry = stored)
    | none => Except.error "Invalid checksum in WAL entry"
  | none => Except.ok false

/-- `RestorePolicy` (`restore_policy.rs`). -/
inductive RestorePolicy : Type where
  | RecoverPending
  | RecoverAll
  | Discard
deriving DecidableEq, Repr

/-- The per-line loop of `WriteAheadLog::load_transactions`, returning the
ids of the reconstructed transactions (the rebuilding of the pending
vectors out of their JSON is elided — only the id is consumed by the
properties below).  `none` models the `unwrap` panic on an entry whose
`tx_id` is not a number. -/
def loadTransactionIds (policy : RestorePolicy) :
    List Json → Option (List Nat)
  | [] => some []
  | e :: rest =>
    if policy = .RecoverPending && (jsonGet e "status").asStr ≠ some "pending" then
      loadTransactionIds policy rest
    else
      match (jsonGet e "tx_id").asNat with
      | some id => (loadTransactionIds policy rest).map (fun ids => id :: ids)
      | none => none

/-- `WriteAheadLog::load_transactions` (id-level): `Discard` returns the
empty list without reading; the other policies filter the lines. -/
def loadTransactions (wal : List Json) (policy : RestorePolicy) :
    Option (List Nat) :=
  if policy = .Discard then some []
  else loadTransactionIds policy wal

/-- The spec-side condition on one field of the new schema: a field present
in both schemas must keep its type, must not turn required without a
default, and must not turn unique; a brand-new field that is required must
carry a default. -/
def fieldCompatOk (old : TableSchema) (p : String × FieldConstraint) : Prop :=
  match alistGet old.fields p.1 with
  | some oc =>
    oc.fieldType = p.2.fieldType ∧
      ¬(oc.required = false ∧ p.2.required = true ∧ p.2.default = none) ∧
      ¬(oc.unique = false ∧ p.2.unique = true)
  | none => ¬(p.2.required = true ∧ p.2.default = none)

/-- A colliding value for a unique field: the existing value equals (Rust
`==`) the candidate value, except that an existing value equal to the
field's own declared default never collides. -/
def collides (c : FieldConstraint) (v ev : ValueType) : Prop :=
  ev.beqRust v = true ∧
    (c.default = none ∨ ∀ d, c.default = some d → ev.beqRust d = false)

instance (c : FieldConstraint) (v ev : ValueType) :
    Decidable (collides c v ev) := by
  unfold collides
  infer_instance

/-- A trivially accepting regex matcher, used to instantiate the concrete
examples below. -/
def trivialIsMatch : String → String → Except String Bool :=
  fun _ _ => Except.ok true

/-! Concrete objects for the atomicity counterexample: table `T` holds one
committed record; the transaction (ReadCommitted, hence no snapshot)
deletes it and also inserts into the nonexistent table `U`. -/

/-- The committed record of table `T`. -/
def cexRecord : Record := Record.mk 1 [("name", .Str "a")] 1 5

/-- The base database of the counterexample. -/
def cexDb : Database :=
  Database.mk .InMemory [("T", Table.mk [(1, cexRecord)] (TableSchema.mk "T" [] 0))]

/-- A fresh transaction manager. -/
def cexTm : TransactionManager :=
  TransactionManager.mk [] [] (TransactionConfig.mk 30 3 100)

/-- The failing transaction: delete `(T, 1)`, insert into missing `U`. -/
def cexTx : Transaction :=
  Transaction.mk 7 .ReadCommitted [("U", Record.mk 2 [] 0 0)]
    [("T", 1, cexRecord)] [] [("T", 1)] none 0 [] []

/-- The commit environment: not expired, wall clock 10, persistence fine. -/
def cexEnv : CommitEnv := CommitEnv.mk false 10 none

/-! ## Map lemmas -/

theorem alistGet_hmInsert_self {κ α : Type} [DecidableEq κ]
    (m : List (κ × α)) (k : κ) (v : α) :
    alistGet (hmInsert m k v) k = some v := by
  induction m with
  | nil => simp [hmInsert, alistGet]
  | cons p rest ih =>
    by_cases h : k = p.1
    · simp [hmInsert, h, alistGet]
    · simp [hmInsert, h, alistGet, ih]

theorem alistGet_hmInsert_ne {κ α : Type} [DecidableEq κ]
    (m : List (κ × α)) (k k' : κ) (v : α) (h : k' ≠ k) :
    alistGet (hmInsert m k v) k' = alistGet m k' := by
  induction m with
  | nil => simp [hmInsert, alistGet, h]
  | cons p rest ih =>
    by_cases hk : k = p.1
    · subst hk
      simp [hmInsert, alistGet, h]
    · by_cases hk' : k' = p.1
      · simp [hmInsert, hk, alistGet, hk']
      · simp [hmInsert, hk, alistGet, hk', ih]

theorem alistGet_btInsert_self {κ α : Type} [LinearOrder κ] [DecidableEq κ]
    (m : List (κ × α)) (k : κ) (v : α) :
    alistGet (btInsert m k v) k = some v := by
  induction m with
  | nil => simp [btInsert, alistGet]
  | cons p rest ih =>
    rcases lt_trichotomy k p.1 with h | h | h
    · simp [btInsert, h, alistGet]
    · simp [btInsert, h, not_lt_of_lt, alistGet, lt_irrefl]
    · have h1 : ¬ k < p.1 := not_lt_of_lt h
      have h2 : k ≠ p.1 := ne_of_gt h
      simp [btInsert, h1, h2, alistGet, ih]

theorem alistGet_btInsert_ne {κ α : Type} [LinearOrder κ] [DecidableEq κ]
    (m : List (κ × α)) (k k' : κ) (v : α) (h : k' ≠ k) :
    alistGet (btInsert m k v) k' = alistGet m k' := by
  induction m with
  | nil => simp [btInsert, alistGet, h]
  | cons p rest ih =>
    rcases lt_trichotomy k p.1 with hlt | heq | hgt
    · simp [btInsert, hlt, alistGet, h]
    · subst heq
      simp [btInsert, lt_irrefl, alistGet, h]
    · have h1 : ¬ k < p.1 := not_lt_of_lt hgt
      have h2 : k ≠ p.1 := ne_of_gt hgt
      by_cases hk' : k' = p.1
      · simp [btInsert, h1, h2, alistGet, hk']
      · simp [btInsert, h1, h2, alistGet, hk', ih]

theorem alistContains_alistModify {κ α : Type} [DecidableEq κ]
    (m : List (κ × α)) (k j : κ) (f : α → α) :
    alistContains (alistModify m k f) j = alistContains m j := by
  induction m with
  | nil => simp [alistModify]
  | cons p rest ih =>
    by_cases hk : k = p.1
    · subst hk
      by_cases hj : j = p.1 <;> simp [alistModify, alistContains, alistGet, hj]
    · by_cases hj : j = p.1 <;>
        simp_all [alistModify, alistContains, alistGet, hj, hk]

theorem alistContains_btRemove_mono {κ α : Type} [DecidableEq κ]
    (m : List (κ × α)) (k j : κ)
    (h : alistContains (btRemove m k) j = true) :
    alistContains m j = true := by
  induction m with
  | nil => exact h
  | cons p rest ih =>
    by_cases hk : k = p.1
    · subst hk
      by_cases hj : j = p.1
      · simp [alistContains, alistGet, hj]
      · simp only [btRemove, if_pos rfl] at h
        simp [alistContains, alistGet, hj]
        simp [alistContains] at h
        cases hget : alistGet rest j with
        | none => rw [hget] at h; simp at h
        | some v => simp
    · by_cases hj : j = p.1
      · simp [alistContains, alistGet, hj]
      · simp only [btRemove, if_neg hk] at h
        simp only [alistContains, alistGet, hj, if_neg] at h ⊢
        exact ih h

/-! ## Schema-level facts -/

theorem checkUnknownFields_nil_schema (schema : TableSchema)
    (h : schema.fields = []) (values : List (String × ValueType)) :
    checkUnknownFields schema values = Except.ok () := by
  induction values with
  | nil => rfl
  | cons p rest ih => simp [checkUnknownFields, h, ih]

/-- With an empty field list, `validate_record` accepts any value map. -/
theorem validateRecord_nil_fields
    (isMatch : String → String → Except String Bool) (schema : TableSchema)
    (h : schema.fields = []) (values : List (String × ValueType)) :
    schema.validateRecord isMatch values = Except.ok () := by
  unfold TableSchema.validateRecord
  rw [checkUnknownFields_nil_schema schema h values, h]
  rfl

/-- Claim C9: schema-less tables accept arbitrary fields — whenever a
table's schema declares zero fields, `TableSchema::validate_record` accepts
any values map, whatever field names it contains; the unknown-field
rejection only applies when the schema declares at least one field. -/
theorem claim9_schemaless_accepts_any_values
    (isMatch : String → String → Except String Bool) (schema : TableSchema)
    (values : List (String × ValueType)) (h : schema.fields = []) :
    schema.validateRecord isMatch values = Except.ok () :=
  validateRecord_nil_fields isMatch schema h values

/-- Witness for claim C9: a concrete schema with no fields accepts a record
carrying two undeclared fields. -/
theorem claim9_witness :
    TableSchema.validateRecord (fun _ _ => Except.ok true)
      { name := "users", fields := [], version := 1 }
      [("name", .Str "Test"), ("active", .BoolV true)] = Except.ok () :=
  claim9_schemaless_accepts_any_values (fun _ _ => Except.ok true)
    { name := "users", fields := [], version := 1 }
    [("name", .Str "Test"), ("active", .BoolV true)] rfl

/-! ## Claim C6: schema migration compatibility -/

theorem except_seq_ok_iff {ε : Type} (a b : Except ε Unit) :
    (a >>= fun _ => b) = Except.ok () ↔
      (a = Except.ok () ∧ b = Except.ok ()) := by
  cases a with
  | error e => simp [Bind.bind, Except.bind]
  | ok u => cases u; simp [Bind.bind, Except.bind]

theorem checkFieldCompat_cons_ok_iff (old : TableSchema) (f : String)
    (nc : FieldConstraint) (rest : List (String × FieldConstraint)) :
    checkFieldCompat old ((f, nc) :: rest) = Except.ok () ↔
      (fieldCompatOk old (f, nc) ∧ checkFieldCompat old rest = Except.ok ()) := by
  rw [checkFieldCompat]
  cases hget : alistGet old.fields f with
  | some oc =>
    simp only [fieldCompatOk, hget]
    by_cases h1 : oc.fieldType ≠ nc.fieldType
    · rw [if_pos h1]
      constructor
      · intro h; exact Except.noConfusion h
      · rintro ⟨⟨he, -, -⟩, -⟩; exact absurd he h1
    · rw [if_neg h1]
      push_neg at h1
      by_cases h2 : (!oc.required && nc.required && nc.default.isNone) = true
      · rw [if_pos h2]
        simp only [Bool.and_eq_true, Bool.not_eq_true',
          Option.isNone_iff_eq_none] at h2
        constructor
        · intro h; exact Except.noConfusion h
        · rintro ⟨⟨-, hno, -⟩, -⟩
          exact absurd ⟨h2.1.1, h2.1.2, h2.2⟩ hno
      · rw [if_neg h2]
        by_cases h3 : (!oc.unique && nc.unique) = true
        · rw [if_pos h3]
          simp only [Bool.and_eq_true, Bool.not_eq_true'] at h3
          constructor
          · intro h; exact Except.noConfusion h
          · rintro ⟨⟨-, -, hnu⟩, -⟩
            exact absurd ⟨h3.1, h3.2⟩ hnu
        · rw [if_neg h3]
          simp only [Bool.and_eq_true, Bool.not_eq_true',
            Option.isNone_iff_eq_none, not_and] at h2 h3
          constructor
          · intro h
            refine ⟨⟨h1, ?_, ?_⟩, h⟩
            · rintro ⟨ha, hb, hc⟩
              exact h2 ⟨ha, hb⟩ hc
            · rintro ⟨ha, hb⟩
              exact h3 ha hb
          · rintro ⟨-, h⟩; exact h
  | none =>
    simp only [fieldCompatOk, hget]
    by_cases h4 : (nc.required && nc.default.isNone) = true
    · rw [if_pos h4]
      simp only [Bool.and_eq_true, Option.isNone_iff_eq_none] at h4
      constructor
      · intro h; exact Except.noConfusion h
      · rintro ⟨hno, -⟩; exact absurd h4 hno
    · rw [if_neg h4]
      simp only [Bool.and_eq_true, Option.isNone_iff_eq_none, not_and] at h4
      constructor
      · intro h
        exact ⟨fun hc => h4 hc.1 hc.2, h⟩
      · rintro ⟨-, h⟩; exact h

theorem checkFieldCompat_ok_iff (old : TableSchema)
    (fields : List (String × FieldConstraint)) :
    checkFieldCompat old fields = Except.ok () ↔
      ∀ p ∈ fields, fieldCompatOk old p := by
  induction fields with
  | nil => simp [checkFieldCompat]
  | cons q rest ih =>
    obtain ⟨f, nc⟩ := q
    rw [checkFieldCompat_cons_ok_iff, ih]
    constructor
    · rintro ⟨hstep, hrest⟩ p hp
      rcases List.mem_cons.mp hp with rfl | hp'
      · exact hstep
      · exact hrest p hp'
    · intro h
      exact ⟨h (f, nc) (List.mem_cons_self _ _),
        fun p hp => h p (List.mem_cons_of_mem _ hp)⟩

/-- Claim C6: `can_migrate_from(old)` on the new schema succeeds if and
only if the new version is strictly greater than the old, every field
present in both schemas keeps its type, does not go from not-required to
required without a default, and does not go from non-unique to unique
(adding `unique` alone is always rejected), and every brand-new required
field carries a default.  Fields removed by the new schema impose no
condition, so removal alone is never a reason to reject. -/
theorem claim6_can_migrate_iff (newS old : TableSchema) :
    newS.canMigrateFrom old = Except.ok () ↔
      (old.version < newS.version ∧ ∀ p ∈ newS.fields, fieldCompatOk old p) := by
  rw [TableSchema.canMigrateFrom]
  by_cases hv : newS.version ≤ old.version
  · rw [if_pos hv]
    constructor
    · intro h; cases h
    · rintro ⟨hlt, -⟩
      exact absurd hv (not_le_of_lt hlt)
  · rw [if_neg hv]
    push_neg at hv
    rw [checkFieldCompat_ok_iff]
    exact ⟨fun h => ⟨hv, h⟩, fun h => h.2⟩

/-! ## Claims C10 and C8: `Table::insert_record` -/

theorem applyDefaults_id (fields : List (String × FieldConstraint))
    (r : Record) : (applyDefaults fields r).id = r.id := by
  induction fields generalizing r with
  | nil => rfl
  | cons p rest ih =>
    obtain ⟨f, c⟩ := p
    rw [applyDefaults]
    cases hc : c.default <;>
      by_cases hmem : alistContains r.values f = true <;>
      simp [hc, hmem, ih, Record.setField]

theorem mem_keys_btInsert {κ α : Type} [LinearOrder κ]
    (m : List (κ × α)) (k : κ) (v : α) (x : κ)
    (h : x ∈ (btInsert m k v).map Prod.fst) :
    x ∈ m.map Prod.fst ∨ x = k := by
  induction m with
  | nil => simp [btInsert] at h; simp [h]
  | cons p rest ih =>
    rw [btInsert] at h
    by_cases h1 : k < p.1
    · rw [if_pos h1] at h
      simp only [List.map_cons, List.mem_cons] at h
      rcases h with rfl | rfl | hx
      · exact Or.inr rfl
      · exact Or.inl (by simp)
      · exact Or.inl (by simp [hx])
    · rw [if_neg h1] at h
      by_cases h2 : k = p.1
      · rw [if_pos h2] at h
        simp only [List.map_cons, List.mem_cons] at h
        rcases h with rfl | hx
        · exact Or.inr rfl
        · exact Or.inl (by simp [hx])
      · rw [if_neg h2] at h
        simp only [List.map_cons, List.mem_cons] at h
        rcases h with rfl | hx
        · exact Or.inl (by simp)
        · rcases ih hx with hl | hr
          · exact Or.inl (by simp [hl])
          · exact Or.inr hr

theorem pairwise_keys_btInsert {κ α : Type} [LinearOrder κ]
    (m : List (κ × α)) (k : κ) (v : α)
    (h : List.Pairwise (· < ·) (m.map Prod.fst)) :
    List.Pairwise (· < ·) ((btInsert m k v).map Prod.fst) := by
  induction m with
  | nil => simp [btInsert]
  | cons p rest ih =>
    simp only [List.map_cons, List.pairwise_cons] at h
    rw [btInsert]
    by_cases h1 : k < p.1
    · rw [if_pos h1]
      simp only [List.map_cons, List.pairwise_cons]
      refine ⟨?_, h.1, h.2⟩
      intro x hx
      rcases List.mem_cons.mp hx with rfl | hx'
      · exact h1
      · exact lt_trans h1 (h.1 x hx')
    · rw [if_neg h1]
      by_cases h2 : k = p.1
      · rw [if_pos h2]
        subst h2
        simp only [List.map_cons, List.pairwise_cons]
        exact h
      · rw [if_neg h2]
        simp only [List.map_cons, List.pairwise_cons]
        refine ⟨?_, ih h.2⟩
        intro x hx
        rcases mem_keys_btInsert rest k v x hx with hl | rfl
        · exact h.1 x hl
        · rcases lt_trichotomy x p.1 with hlt | heq | hgt
          · exact absurd hlt h1
          · exact absurd heq h2
          · exact hgt

/-- Claim C10: `Table::insert_record` is an upsert at the map level — a
successful insert stores the record (with defaults applied) at its id,
replacing any record previously stored there, leaves every other id's
binding unchanged, and preserves the strictly-ascending key order (so each
id maps to exactly one record after any sequence of inserts). -/
theorem claim10_insert_is_upsert
    (isMatch : String → String → Except String Bool) (tbl : Table)
    (r : Record) (tbl' : Table)
    (hins : Table.insertRecord isMatch tbl r = Except.ok tbl')
    (hsorted : List.Pairwise (· < ·) (tbl.data.map Prod.fst)) :
    (∀ j : Nat,
      alistGet tbl'.data j =
        if j = r.id then some (applyDefaults tbl.schema.fields r)
        else alistGet tbl.data j) ∧
    List.Pairwise (· < ·) (tbl'.data.map Prod.fst) := by
  rw [Table.insertRecord] at hins
  cases hval : tbl.schema.validateRecord isMatch
      (applyDefaults tbl.schema.fields r).values with
  | error e => rw [hval] at hins; exact Except.noConfusion hins
  | ok u =>
    rw [hval] at hins
    cases hun : uniqueCheck tbl.schema tbl.data
        (applyDefaults tbl.schema.fields r).id
        (applyDefaults tbl.schema.fields r).values with
    | error e => rw [hun] at hins; exact Except.noConfusion hins
    | ok u' =>
      rw [hun] at hins
      have htbl :
          tbl' = { tbl with data := btInsert tbl.data (applyDefaults tbl.schema.fields r).id (applyDefaults tbl.schema.fields r) } := by
        cases hins; rfl
      subst htbl
      rw [applyDefaults_id]
      constructor
      · intro j
        by_cases hj : j = r.id
        · subst hj
          rw [if_pos rfl]
          exact alistGet_btInsert_self tbl.data r.id _
        · rw [if_neg hj]
          exact alistGet_btInsert_ne tbl.data r.id j _ hj
      · exact pairwise_keys_btInsert tbl.data r.id _ hsorted

/-- Witness for claim C10: inserting id 1 into a schema-less table already
holding a record with id 1 succeeds and replaces the stored record. -/
theorem claim10_witness :
    (∀ j : Nat,
      alistGet
        (Table.mk [(1, Record.mk 1 [("name", .Str "new")] 0 0)]
          (TableSchema.mk "t" [] 1)).data j =
        if j = (1 : Nat) then some (Record.mk 1 [("name", .Str "new")] 0 0)
        else alistGet [(1, Record.mk 1 [("name", .Str "old")] 3 4)] j) ∧
    List.Pairwise (· < ·)
      (([((1 : Nat), Record.mk 1 [("name", .Str "new")] 0 0)]).map Prod.fst) := by
  have h := claim10_insert_is_upsert (fun _ _ => Except.ok true)
    (Table.mk [(1, Record.mk 1 [("name", .Str "old")] 3 4)]
      (TableSchema.mk "t" [] 1))
    (Record.mk 1 [("name", .Str "new")] 0 0)
    (Table.mk [(1, Record.mk 1 [("name", .Str "new")] 0 0)]
      (TableSchema.mk "t" [] 1))
    (by rfl) (by simp)
  exact h

theorem collides_bool_iff (c : FieldConstraint) (v ev : ValueType) :
    (ev.beqRust v &&
      (c.default.isNone ||
        !(match c.default with
          | some d => ev.beqRust d
          | none => false))) = true ↔ collides c v ev := by
  cases hd : c.default with
  | none =>
    simp [collides, hd]
  | some d =>
    simp only [hd, Option.isNone_some, Bool.false_or, Bool.and_eq_true,
      Bool.not_eq_true', collides]
    constructor
    · rintro ⟨h1, h2⟩
      refine ⟨h1, Or.inr ?_⟩
      rintro d' hd'
      cases hd'
      exact h2
    · rintro ⟨h1, h2⟩
      rcases h2 with h2 | h2
      · exact absurd h2 (Option.some_ne_none d)
      · exact ⟨h1, h2 d rfl⟩

theorem scanExisting_ok_iff (fieldName : String) (v : ValueType)
    (c : FieldConstraint) (recId : Nat) (data : List (Nat × Record)) :
    scanExistingForCollision fieldName v c recId data = Except.ok () ↔
      ∀ p ∈ data, p.2.id ≠ recId →
        ∀ ev, alistGet p.2.values fieldName = some ev → ¬ collides c v ev := by
  induction data with
  | nil => simp [scanExistingForCollision]
  | cons p rest ih =>
    rw [scanExistingForCollision]
    by_cases hid : p.2.id ≠ recId
    · rw [if_pos hid]
      cases hev : alistGet p.2.values fieldName with
      | some ev =>
        simp only []
        by_cases hcol : (ev.beqRust v &&
            (c.default.isNone ||
              !(match c.default with
                | some d => ev.beqRust d
                | none => false))) = true
        · rw [if_pos hcol]
          rw [collides_bool_iff] at hcol
          constructor
          · intro h; exact Except.noConfusion h
          · intro h
            exact absurd hcol
              (h p (List.mem_cons_self _ _) hid ev hev)
        · rw [if_neg hcol]
          rw [ih]
          constructor
          · intro h q hq hqid ev' hev'
            rcases List.mem_cons.mp hq with rfl | hq'
            · rw [hev] at hev'
              cases hev'
              rw [← collides_bool_iff]
              exact hcol
            · exact h q hq' hqid ev' hev'
          · intro h q hq hqid ev' hev'
            exact h q (List.mem_cons_of_mem _ hq) hqid ev' hev'
      | none =>
        simp only []
        rw [ih]
        constructor
        · intro h q hq hqid ev' hev'
          rcases List.mem_cons.mp hq with rfl | hq'
          · rw [hev] at hev'; exact Option.noConfusion hev'
          · exact h q hq' hqid ev' hev'
        · intro h q hq hqid ev' hev'
          exact h q (List.mem_cons_of_mem _ hq) hqid ev' hev'
    · rw [if_neg hid]
      rw [ih]
      constructor
      · intro h q hq hqid ev' hev'
        rcases List.mem_cons.mp hq with rfl | hq'
        · exact absurd hqid hid
        · exact h q hq' hqid ev' hev'
      · intro h q hq hqid ev' hev'
        exact h q (List.mem_cons_of_mem _ hq) hqid ev' hev'

theorem uniqueCheck_ok_iff (schema : TableSchema)
    (data : List (Nat × Record)) (recId : Nat)
    (values : List (String × ValueType)) :
    uniqueCheck schema data recId values = Except.ok () ↔
      ∀ q ∈ values, ∀ c, alistGet schema.fields q.1 = some c →
        c.unique = true →
        scanExistingForCollision q.1 q.2 c recId data = Except.ok () := by
  induction values with
  | nil => simp [uniqueCheck]
  | cons q rest ih =>
    obtain ⟨fieldName, v⟩ := q
    rw [uniqueCheck]
    cases hc : alistGet schema.fields fieldName with
    | some c =>
      simp only []
      by_cases hu : c.unique = true
      · rw [if_pos hu]
        cases hscan : scanExistingForCollision fieldName v c recId data with
        | ok u =>
          cases u
          simp only []
          rw [ih]
          constructor
          · intro h q' hq' c' hc' hu'
            rcases List.mem_cons.mp hq' with rfl | hq''
            · rw [hc] at hc'; cases hc'; exact hscan
            · exact h q' hq'' c' hc' hu'
          · intro h q' hq' c' hc' hu'
            exact h q' (List.mem_cons_of_mem _ hq') c' hc' hu'
        | error e =>
          simp only []
          constructor
          · intro h; exact Except.noConfusion h
          · intro h
            have := h (fieldName, v) (List.mem_cons_self _ _) c hc hu
            rw [hscan] at this
            exact Except.noConfusion this
      · rw [if_neg hu]
        rw [ih]
        constructor
        · intro h q' hq' c' hc' hu'
          rcases List.mem_cons.mp hq' with rfl | hq''
          · rw [hc] at hc'; cases hc'; exact absurd hu' hu
          · exact h q' hq'' c' hc' hu'
        · intro h q' hq' c' hc' hu'
          exact h q' (List.mem_cons_of_mem _ hq') c' hc' hu'
    | none =>
      simp only []
      rw [ih]
      constructor
      · intro h q' hq' c' hc' hu'
        rcases List.mem_cons.mp hq' with rfl | hq''
        · rw [hc] at hc'; exact Option.noConfusion hc'
        · exact h q' hq'' c' hc' hu'
      · intro h q' hq' c' hc' hu'
        exact h q' (List.mem_cons_of_mem _ hq') c' hc' hu'

/-- Claim C8: given that schema validation passes on the defaulted record,
`Table::insert_record` is rejected if and only if some unique-constrained
field of the record has an equal value (Rust `==`) in an existing record
with a different id — except that an existing value equal to the field's
own declared default never collides, so records holding the default value
of a unique field may coexist. -/
theorem claim8_unique_rejection_iff
    (isMatch : String → String → Except String Bool) (tbl : Table)
    (r : Record)
    (hv : tbl.schema.validateRecord isMatch
      (applyDefaults tbl.schema.fields r).values = Except.ok ()) :
    (∃ e, Table.insertRecord isMatch tbl r = Except.error e) ↔
      ∃ q ∈ (applyDefaults tbl.schema.fields r).values,
        ∃ c, alistGet tbl.schema.fields q.1 = some c ∧ c.unique = true ∧
          ∃ p ∈ tbl.data, p.2.id ≠ r.id ∧
            ∃ ev, alistGet p.2.values q.1 = some ev ∧ collides c q.2 ev := by
  rw [Table.insertRecord]
  rw [hv]
  rw [← applyDefaults_id tbl.schema.fields r]
  cases hun : uniqueCheck tbl.schema tbl.data
      (applyDefaults tbl.schema.fields r).id
      (applyDefaults tbl.schema.fields r).values with
  | ok u =>
    cases u
    rw [uniqueCheck_ok_iff] at hun
    simp only [exists_false, false_iff, Except.ok.injEq, reduceCtorEq]
    rintro ⟨q, hq, c, hc, hu, p, hp, hpid, ev, hev, hcol⟩
    have := hun q hq c hc hu
    rw [scanExisting_ok_iff] at this
    exact absurd hcol (this p hp hpid ev hev)
  | error e =>
    constructor
    · rintro ⟨e', -⟩
      by_contra hno
      push_neg at hno
      have : uniqueCheck tbl.schema tbl.data
          (applyDefaults tbl.schema.fields r).id
          (applyDefaults tbl.schema.fields r).values = Except.ok () := by
        rw [uniqueCheck_ok_iff]
        intro q hq c hc hu
        rw [scanExisting_ok_iff]
        intro p hp hpid ev hev
        intro hcol
        exact absurd hcol (hno q hq c hc hu p hp hpid ev hev)
      rw [hun] at this
      exact Except.noConfusion this
    · intro _
      exact ⟨e, rfl⟩

/-- Witness for claim C8: with a `unique` field `email` whose default is
`"none"`, a second record repeating the non-default value `"a@x"` is
rejected, exercising the theorem at a concrete table. -/
theorem claim8_witness :
    ∃ e, Table.insertRecord (fun _ _ => Except.ok true)
      (Table.mk [(1, Record.mk 1 [("email", .Str "a@x")] 1 1)]
        (TableSchema.mk "t"
          [("email", FieldConstraint.mk .String false none none none true
            (some (.Str "none")))] 1))
      (Record.mk 2 [("email", .Str "a@x")] 0 0) = Except.error e := by
  apply (claim8_unique_rejection_iff (fun _ _ => Except.ok true)
    (Table.mk [(1, Record.mk 1 [("email", .Str "a@x")] 1 1)]
      (TableSchema.mk "t"
        [("email", FieldConstraint.mk .String false none none none true
          (some (.Str "none")))] 1))
    (Record.mk 2 [("email", .Str "a@x")] 0 0) (by rfl)).mpr
  refine ⟨("email", .Str "a@x"), by decide,
    FieldConstraint.mk .String false none none none true (some (.Str "none")),
    by decide, by decide,
    (1, Record.mk 1 [("email", .Str "a@x")] 1 1), by decide, by decide,
    .Str "a@x", by decide, by decide⟩

/-! ## Claim C4: `DBEngine::insert_record` bookkeeping -/

theorem contains_applyDrops_false (db : Database) (drops : List String)
    (t : String) (h : alistContains db.tables t = false) :
    alistContains (applyDrops db drops).tables t = false := by
  induction drops generalizing db with
  | nil => exact h
  | cons d rest ih =>
    have hstep : applyDrops db (d :: rest) =
        applyDrops { db with tables := btRemove db.tables d } rest := rfl
    rw [hstep]
    apply ih
    cases hc : alistContains (btRemove db.tables d) t with
    | false => rfl
    | true => rw [alistContains_btRemove_mono db.tables d t hc] at h; cases h

theorem contains_applyDeletes (db : Database)
    (dels : List (String × Nat × Record)) (t : String) :
    alistContains (applyDeletes db dels).tables t = alistContains db.tables t := by
  induction dels generalizing db with
  | nil => rfl
  | cons d rest ih =>
    have hstep : applyDeletes db (d :: rest) =
        applyDeletes { db with tables := alistModify db.tables d.1 (fun tbl => tbl.deleteRecord d.2.1) } rest := rfl
    rw [hstep, ih]
    exact alistContains_alistModify db.tables d.1 t _

theorem contains_applyCreates_false (db : Database) (creates : List String)
    (t : String) (h : alistContains db.tables t = false)
    (hnc : t ∉ creates) :
    alistContains (applyCreates db creates).tables t = false := by
  induction creates generalizing db with
  | nil => exact h
  | cons c rest ih =>
    have hstep : applyCreates db (c :: rest) =
        applyCreates (if alistContains db.tables c = true then db
          else { db with tables := btInsert db.tables c emptyTable }) rest := by
      rw [applyCreates, applyCreates, List.foldl_cons]
    rw [hstep]
    have hne : t ≠ c := fun he => hnc (he ▸ List.mem_cons_self c rest)
    have hrest : t ∉ rest := fun hm => hnc (List.mem_cons_of_mem _ hm)
    by_cases hcc : alistContains db.tables c = true
    · rw [if_pos hcc]
      exact ih db h hrest
    · rw [if_neg hcc]
      apply ih _ _ hrest
      simp only [alistContains] at h ⊢
      have hbt : alistGet (btInsert db.tables c emptyTable) t =
          alistGet db.tables t :=
        alistGet_btInsert_ne db.tables c t emptyTable hne
      rw [hbt]
      exact h

/-- Claim C4 counterexample: with an empty base database and a transaction
whose `pending_table_creates` holds `"t"`, `insert_record` does not append
`("t", 1)` to the write set — the code consults only the base database, not
the pending creates, contrary to the claim. -/
theorem claim4_counterexample :
    ("t", (1 : Nat)) ∉
      (DBEngine.insertRecord (Database.mk .InMemory [])
        (Transaction.mk 1 .ReadCommitted [] [] [] [] none 0 ["t"] [])
        "t" (Record.mk 1 [] 0 0)).writeSet := by
  decide

/-- Claim C4 (amended): `insert_record` appends to both the write set and
`pending_inserts` exactly when the table exists in the base database;
otherwise — even when the table is in the transaction's own
`pending_table_creates` — only the pending insert is recorded.  The
missing-table commit error arises exactly when the table is neither in the
base database nor among the pending creates (creates are applied before
inserts), stated here for a transaction with no earlier pending inserts. -/
theorem claim4_amended (isMatch : String → String → Except String Bool)
    (db : Database) (tx : Transaction) (t : String) (r : Record) (ts : Nat) :
    (alistContains db.tables t = true →
      DBEngine.insertRecord db tx t r =
        { tx with
          writeSet := tx.writeSet ++ [(t, r.id)]
          pendingInserts := tx.pendingInserts ++ [(t, r)] }) ∧
    (alistContains db.tables t = false →
      DBEngine.insertRecord db tx t r =
        { tx with pendingInserts := tx.pendingInserts ++ [(t, r)] }) ∧
    (alistContains db.tables t = false → t ∉ tx.pendingTableCreates →
      tx.pendingInserts = [] →
      (applyTransactionChanges isMatch db (DBEngine.insertRecord db tx t r)
        ts).2 = some ("Table not found: " ++ t)) := by
  refine ⟨?_, ?_, ?_⟩
  · intro h
    rw [DBEngine.insertRecord, h]
    rfl
  · intro h
    rw [DBEngine.insertRecord, h]
    rfl
  · intro h hnc hpi
    rw [DBEngine.insertRecord, h]
    simp only [Bool.not_false, if_pos]
    rw [applyTransactionChanges]
    simp only [hpi, List.nil_append]
    rw [applyInserts]
    have hfin : alistContains (applyCreates (applyDeletes (applyDrops db
        tx.pendingTableDrops) tx.pendingDeletes)
        tx.pendingTableCreates).tables t = false := by
      apply contains_applyCreates_false _ _ _ _ hnc
      rw [contains_applyDeletes]
      exact contains_applyDrops_false db tx.pendingTableDrops t h
    have hnone : alistGet (applyCreates (applyDeletes (applyDrops db
        tx.pendingTableDrops) tx.pendingDeletes)
        tx.pendingTableCreates).tables t = none := by
      simp only [alistContains] at hfin
      exact Option.not_isSome_iff_eq_none.mp (by simp [hfin])
    rw [hnone]

/-- Witness for claim C4 (amended): the three branches at a concrete empty
database and transaction. -/
theorem claim4_witness :
    (applyTransactionChanges (fun _ _ => Except.ok true)
      (Database.mk .InMemory [])
      (DBEngine.insertRecord (Database.mk .InMemory [])
        (Transaction.mk 2 .ReadCommitted [] [] [] [] none 0 [] [])
        "users" (Record.mk 1 [] 0 0)) 9).2 =
      some ("Table not found: " ++ "users") :=
  (claim4_amended (fun _ _ => Except.ok true) (Database.mk .InMemory [])
    (Transaction.mk 2 .ReadCommitted [] [] [] [] none 0 [] [])
    "users" (Record.mk 1 [] 0 0) 9).2.2 (by decide) (by decide) (by decide)

/-! ## Claim C3: read-your-writes inside one transaction -/

/-- Claim C3 counterexample: insert into a table that does not exist in the
base database, then `get_record` in the same transaction — the claim
predicts the inserted record comes back, but the pending insert was
recorded without a write-set entry, so the read falls through to the (empty)
base database and returns none. -/
theorem claim3_counterexample :
    ¬ ((DBEngine.getRecord (Database.mk .InMemory []) false
        (DBEngine.insertRecord (Database.mk .InMemory [])
          (Transaction.mk 3 .ReadCommitted [] [] [] [] none 0 [] [])
          "u" (Record.mk 1 [("a", .IntV 5)] 0 0))
        "u" 1).1 = some (Record.mk 1 [("a", .IntV 5)] 0 0)) := by
  decide

theorem acquireLockWithRetry_free_or_self (tm : TransactionManager)
    (txId : Nat) (t : String) (id : Nat)
    (hlock : alistGet tm.locks (t, id) = none ∨
      alistGet tm.locks (t, id) = some txId)
    (hretry : 1 ≤ tm.config.maxRetries) :
    (tm.acquireLockWithRetry txId t id).1 = true := by
  rw [TransactionManager.acquireLockWithRetry]
  obtain ⟨n, hn⟩ : ∃ n, tm.config.maxRetries = n + 1 := by
    cases hmr : tm.config.maxRetries with
    | zero => rw [hmr] at hretry; exact absurd hretry (by simp)
    | succ n => exact ⟨n, rfl⟩
  rw [hn, acquireLockRetryLoop]
  rcases hlock with h | h <;>
    simp [TransactionManager.acquireLock, h]

/-- Claim C3 (amended): within one transaction (not expired, running
sequentially against the base database),
(a) after `insert_record(tx, T, r)` into a table that exists in the base
database, `get_record(tx, T, r.id)` returns `r`, provided no earlier
pending insert of the transaction shadows `(T, r.id)` (the write-set lookup
returns the first matching pending insert); and
(b) after `delete_record(tx, T, id)` — with the row lock free or already
held by this transaction, at least one lock retry configured, and the
snapshot (if any) agreeing with the base database — `get_record(tx, T, id)`
returns none, provided no pending insert of the transaction shadows
`(T, id)`. -/
theorem claim3_amended (db : Database) (tm : TransactionManager)
    (tx : Transaction) (t : String) (r : Record) (id : Nat) :
    (alistContains db.tables t = true →
      (∀ p ∈ tx.pendingInserts, ¬(p.1 = t ∧ p.2.id = r.id)) →
      (DBEngine.getRecord db false (DBEngine.insertRecord db tx t r)
        t r.id).1 = some r) ∧
    ((∀ p ∈ tx.pendingInserts, ¬(p.1 = t ∧ p.2.id = id)) →
      (alistGet tm.locks (t, id) = none ∨
        alistGet tm.locks (t, id) = some tx.id) →
      1 ≤ tm.config.maxRetries →
      (tx.snapshot = none ∨ tx.snapshot = some db) →
      (DBEngine.getRecord db false
        (DBEngine.deleteRecord db tm tx t id).1 t id).1 = none) := by
  constructor
  · intro hc hno
    rw [DBEngine.insertRecord]
    rw [hc]
    simp only [Bool.not_true, Bool.false_eq_true, if_false]
    have hmem : (t, r.id) ∈ tx.writeSet ++ [(t, r.id)] :=
      List.mem_append_right _ (by simp)
    have hfind : List.find? (fun p => p.1 = t && p.2.id = r.id)
        (tx.pendingInserts ++ [(t, r)]) = some (t, r) := by
      rw [List.find?_append]
      have h1 : List.find? (fun p => p.1 = t && p.2.id = r.id)
          tx.pendingInserts = none := by
        rw [List.find?_eq_none]
        intro p hp
        have := hno p hp
        simp only [Bool.and_eq_true, decide_eq_true_eq]
        exact fun hcon => this hcon
      rw [h1]
      simp
    simp [DBEngine.getRecord, hmem, hfind]
  · intro hno hlock hretry hsnap
    have hdel : (DBEngine.deleteRecord db tm tx t id).1 =
        recordPendingDelete db tx t id := by
      rw [DBEngine.deleteRecord]
      have hok := acquireLockWithRetry_free_or_self tm tx.id t id hlock hretry
      cases hacq : tm.acquireLockWithRetry tx.id t id with
      | mk ok1 tm1 =>
        rw [hacq] at hok
        simp only at hok
        subst hok
        simp
    rw [hdel]
    have hfindno : List.find? (fun p => p.1 = t && p.2.id = id)
        tx.pendingInserts = none := by
      rw [List.find?_eq_none]
      intro p hp
      have := hno p hp
      simp only [Bool.and_eq_true, decide_eq_true_eq]
      exact fun hcon => this hcon
    rw [recordPendingDelete]
    cases hrec : (alistGet db.tables t).bind (fun tbl => tbl.getRecord id) with
    | some oldRec =>
      simp only []
      have hmem : (t, id) ∈ tx.writeSet ++ [(t, id)] :=
        List.mem_append_right _ (by simp)
      have hany : ((tx.pendingDeletes ++ [(t, id, oldRec)]).any
          (fun p => p.1 = t && p.2.1 = id)) = true := by
        rw [List.any_eq_true]
        exact ⟨(t, id, oldRec), List.mem_append_right _ (by simp), by simp⟩
      simp [DBEngine.getRecord, hmem, hfindno, hany]
    | none =>
      simp only []
      have hbase : ∀ lvl : IsolationLevel,
          (match lvl with
           | .ReadUncommitted => getLatestRecord db t id
           | .ReadCommitted => getCommittedRecord db t id
           | .RepeatableRead | .Serializable =>
             match tx.snapshot with
             | some snapshot => getSnapshotRecord snapshot t id
             | none => getCommittedRecord db t id) = none := by
        intro lvl
        have hlat : getLatestRecord db t id = none := by
          rw [getLatestRecord, Database.lookupRecord, hrec]
        have hcom : getCommittedRecord db t id = none := by
          rw [getCommittedRecord, Database.lookupRecord, hrec]; rfl
        cases lvl with
        | ReadUncommitted => exact hlat
        | ReadCommitted => exact hcom
        | RepeatableRead =>
          rcases hsnap with h | h <;> rw [h]
          · exact hcom
          · show getSnapshotRecord db t id = none
            rw [getSnapshotRecord, Database.lookupRecord, hrec]
        | Serializable =>
          rcases hsnap with h | h <;> rw [h]
          · exact hcom
          · show getSnapshotRecord db t id = none
            rw [getSnapshotRecord, Database.lookupRecord, hrec]
      by_cases hws : (t, id) ∈ tx.writeSet
      · by_cases hdelmem : (tx.pendingDeletes.any
            (fun p => p.1 = t && p.2.1 = id)) = true
        · simp [DBEngine.getRecord, hws, hfindno, hdelmem]
        · simp [DBEngine.getRecord, hws, hfindno, hdelmem, hbase]
      · simp [DBEngine.getRecord, hws, hbase]

/-- Witness for claim C3 (amended): a concrete table with one committed
record — insert-then-get returns the pending record, delete-then-get
returns none. -/
theorem claim3_witness :
    ((DBEngine.getRecord
        (Database.mk .InMemory
          [("t", Table.mk [(1, Record.mk 1 [("x", .IntV 1)] 1 2)]
            (TableSchema.mk "t" [] 0))]) false
        (DBEngine.insertRecord
          (Database.mk .InMemory
            [("t", Table.mk [(1, Record.mk 1 [("x", .IntV 1)] 1 2)]
              (TableSchema.mk "t" [] 0))])
          (Transaction.mk 4 .ReadCommitted [] [] [] [] none 0 [] [])
          "t" (Record.mk 2 [("x", .IntV 9)] 0 0))
        "t" 2).1 = some (Record.mk 2 [("x", .IntV 9)] 0 0)) ∧
    ((DBEngine.getRecord
        (Database.mk .InMemory
          [("t", Table.mk [(1, Record.mk 1 [("x", .IntV 1)] 1 2)]
            (TableSchema.mk "t" [] 0))]) false
        (DBEngine.deleteRecord
          (Database.mk .InMemory
            [("t", Table.mk [(1, Record.mk 1 [("x", .IntV 1)] 1 2)]
              (TableSchema.mk "t" [] 0))])
          (TransactionManager.mk [] [] (TransactionConfig.mk 30 3 100))
          (Transaction.mk 4 .ReadCommitted [] [] [] [] none 0 [] [])
          "t" 1).1 "t" 1).1 = none) := by
  constructor
  · exact (claim3_amended
      (Database.mk .InMemory
        [("t", Table.mk [(1, Record.mk 1 [("x", .IntV 1)] 1 2)]
          (TableSchema.mk "t" [] 0))])
      (TransactionManager.mk [] [] (TransactionConfig.mk 30 3 100))
      (Transaction.mk 4 .ReadCommitted [] [] [] [] none 0 [] [])
      "t" (Record.mk 2 [("x", .IntV 9)] 0 0) 1).1 (by decide) (by decide)
  · exact (claim3_amended
      (Database.mk .InMemory
        [("t", Table.mk [(1, Record.mk 1 [("x", .IntV 1)] 1 2)]
          (TableSchema.mk "t" [] 0))])
      (TransactionManager.mk [] [] (TransactionConfig.mk 30 3 100))
      (Transaction.mk 4 .ReadCommitted [] [] [] [] none 0 [] [])
      "t" (Record.mk 2 [("x", .IntV 9)] 0 0) 1).2 (by decide) (by decide)
      (by decide) (by decide)

/-! ## Claim C1: atomicity of failed transactions -/

theorem insertRecord_schema (isMatch : String → String → Except String Bool)
    (tbl : Table) (r : Record) (tbl' : Table)
    (h : Table.insertRecord isMatch tbl r = Except.ok tbl') :
    tbl'.schema = tbl.schema := by
  rw [Table.insertRecord] at h
  cases hval : tbl.schema.validateRecord isMatch
      (applyDefaults tbl.schema.fields r).values with
  | error e => rw [hval] at h; exact Except.noConfusion h
  | ok u =>
    rw [hval] at h
    cases hun : uniqueCheck tbl.schema tbl.data
        (applyDefaults tbl.schema.fields r).id
        (applyDefaults tbl.schema.fields r).values with
    | error e => rw [hun] at h; exact Except.noConfusion h
    | ok u' =>
      rw [hun] at h
      cases h
      rfl

theorem uniqueCheck_nil_fields (schema : TableSchema)
    (h : schema.fields = []) (data : List (Nat × Record)) (recId : Nat)
    (values : List (String × ValueType)) :
    uniqueCheck schema data recId values = Except.ok () := by
  induction values with
  | nil => rfl
  | cons q rest ih =>
    obtain ⟨f, v⟩ := q
    rw [uniqueCheck, h]
    exact ih

/-- A schema with no declared fields accepts any record unchanged:
`insert_record` on a schema-less table always succeeds and stores the
record at its id. -/
theorem insertRecord_nil_schema
    (isMatch : String → String → Except String Bool) (tbl : Table)
    (r : Record) (h : tbl.schema.fields = []) :
    Table.insertRecord isMatch tbl r =
      Except.ok { tbl with data := btInsert tbl.data r.id r } := by
  rw [Table.insertRecord]
  have hdef : applyDefaults tbl.schema.fields r = r := by rw [h]; rfl
  rw [hdef, validateRecord_nil_fields isMatch tbl.schema h,
    uniqueCheck_nil_fields tbl.schema h]

theorem rollbackStep_preserves_tblinv
    (isMatch : String → String → Except String Bool) (tx : Transaction)
    (db : Database) (e : String × Nat) (t : String)
    (hinv : ∃ tbl, alistGet db.tables t = some tbl ∧ tbl.schema.fields = []) :
    ∃ tbl, alistGet (rollbackStep isMatch tx db e).tables t = some tbl ∧
      tbl.schema.fields = [] := by
  obtain ⟨tbl, htbl, hfields⟩ := hinv
  rw [rollbackStep]
  cases hsnap : tx.snapshot with
  | none => exact ⟨tbl, htbl, hfields⟩
  | some snap =>
    simp only []
    cases hsl : (alistGet snap.tables e.1).bind (fun tb => tb.getRecord e.2) with
    | none => exact ⟨tbl, htbl, hfields⟩
    | some sr =>
      simp only []
      cases hdbt : alistGet db.tables e.1 with
      | none => exact ⟨tbl, htbl, hfields⟩
      | some tble =>
        simp only []
        by_cases ht : t = e.1
        · subst ht
          rw [htbl] at hdbt
          cases hdbt
          refine ⟨_, alistGet_hmInsert_self db.tables e.1 _, ?_⟩
          cases hins : Table.insertRecord isMatch tbl sr with
          | ok t' =>
            simp only [hins]
            rw [insertRecord_schema isMatch tbl sr t' hins]
            exact hfields
          | error err => simp only [hins]; exact hfields
        · exact ⟨tbl, by rw [alistGet_hmInsert_ne db.tables e.1 t _ ht]; exact htbl,
            hfields⟩

theorem alistGet_mem {κ α : Type} [DecidableEq κ] (m : List (κ × α))
    (k : κ) (v : α) (h : alistGet m k = some v) : (k, v) ∈ m := by
  induction m with
  | nil => exact Option.noConfusion h
  | cons p rest ih =>
    rw [alistGet.eq_def] at h
    simp only [] at h
    by_cases hk : k = p.1
    · rw [if_pos hk] at h
      injection h with h2
      subst hk
      subst h2
      simp
    · rw [if_neg hk] at h
      exact List.mem_cons_of_mem _ (ih h)

theorem rollbackStep_preserves_target
    (isMatch : String → String → Except String Bool) (tx : Transaction)
    (snap : Database) (db : Database) (e : String × Nat) (t : String)
    (id : Nat) (r : Record)
    (hsnap : tx.snapshot = some snap)
    (hwf : ∀ p ∈ snap.tables, ∀ q ∈ p.2.data, q.2.id = q.1)
    (hr : (alistGet snap.tables t).bind (fun tb => tb.getRecord id) = some r)
    (hrid : r.id = id)
    (hinv : ∃ tbl, alistGet db.tables t = some tbl ∧ tbl.schema.fields = [])
    (hcur : Database.lookupRecord db t id = some r) :
    Database.lookupRecord (rollbackStep isMatch tx db e) t id = some r := by
  rw [rollbackStep, hsnap]
  simp only []
  cases hsl : (alistGet snap.tables e.1).bind (fun tb => tb.getRecord e.2) with
  | none => exact hcur
  | some sr =>
    simp only []
    cases hdbt : alistGet db.tables e.1 with
    | none => exact hcur
    | some tble =>
      simp only []
      by_cases ht : e.1 = t
      · subst ht
        obtain ⟨tbl, htbl, hfields⟩ := hinv
        rw [htbl] at hdbt
        injection hdbt with hinj
        subst hinj
        rw [Database.lookupRecord]
        rw [alistGet_hmInsert_self db.tables e.1 _]
        simp only [Option.some_bind]
        rw [insertRecord_nil_schema isMatch tbl sr hfields]
        show ({ data := btInsert tbl.data sr.id sr, schema := tbl.schema } : Table).getRecord id = some r
        rw [Table.getRecord]
        simp only []
        have hsrid : sr.id = e.2 := by
          cases hst : alistGet snap.tables e.1 with
          | none => rw [hst] at hsl; exact Option.noConfusion hsl
          | some stb =>
            rw [hst] at hsl
            simp only [Option.some_bind] at hsl
            rw [Table.getRecord] at hsl
            exact hwf (e.1, stb) (alistGet_mem _ _ _ hst) (e.2, sr)
              (alistGet_mem _ _ _ hsl)
        by_cases hid2 : e.2 = id
        · have hsr_r : sr = r := by
            rw [hid2] at hsl
            rw [hsl] at hr
            injection hr
          have hsid : sr.id = id := by rw [hsr_r, hrid]
          rw [hsid, hsr_r]
          exact alistGet_btInsert_self tbl.data id r
        · have hne : id ≠ sr.id := by
            rw [hsrid]
            exact fun hc => hid2 hc.symm
          rw [alistGet_btInsert_ne tbl.data sr.id id sr hne]
          rw [Database.lookupRecord, htbl] at hcur
          simp only [Option.some_bind] at hcur
          rw [Table.getRecord] at hcur
          exact hcur
      · simp only [Database.lookupRecord]
        rw [alistGet_hmInsert_ne db.tables e.1 t _ (fun hc => ht hc.symm)]
        rw [Database.lookupRecord] at hcur
        exact hcur

theorem rollbackStep_hit (isMatch : String → String → Except String Bool)
    (tx : Transaction) (snap : Database) (db : Database) (t : String)
    (id : Nat) (r : Record)
    (hsnap : tx.snapshot = some snap)
    (hr : (alistGet snap.tables t).bind (fun tb => tb.getRecord id) = some r)
    (hrid : r.id = id)
    (hinv : ∃ tbl, alistGet db.tables t = some tbl ∧ tbl.schema.fields = []) :
    Database.lookupRecord (rollbackStep isMatch tx db (t, id)) t id = some r := by
  obtain ⟨tbl, htbl, hfields⟩ := hinv
  rw [rollbackStep, hsnap]
  simp only [hr, htbl]
  rw [insertRecord_nil_schema isMatch tbl r hfields]
  show Database.lookupRecord
    { db with tables := hmInsert db.tables t { data := btInsert tbl.data r.id r, schema := tbl.schema } } t id = some r
  rw [Database.lookupRecord]
  simp only []
  rw [alistGet_hmInsert_self db.tables t _]
  simp only [Option.some_bind]
  rw [Table.getRecord]
  simp only []
  rw [hrid]
  exact alistGet_btInsert_self tbl.data id r

theorem rollback_fold_restores
    (isMatch : String → String → Except String Bool) (tx : Transaction)
    (snap : Database) (t : String) (id : Nat) (r : Record)
    (hsnap : tx.snapshot = some snap)
    (hwf : ∀ p ∈ snap.tables, ∀ q ∈ p.2.data, q.2.id = q.1)
    (hr : (alistGet snap.tables t).bind (fun tb => tb.getRecord id) = some r)
    (hrid : r.id = id) :
    ∀ (ws : List (String × Nat)) (db : Database),
      (∃ tbl, alistGet db.tables t = some tbl ∧ tbl.schema.fields = []) →
      ((t, id) ∈ ws ∨ Database.lookupRecord db t id = some r) →
      Database.lookupRecord (List.foldl (rollbackStep isMatch tx) db ws) t id =
        some r := by
  intro ws
  induction ws with
  | nil =>
    intro db _ hstart
    rcases hstart with hmem | hcur
    · exact absurd hmem (List.not_mem_nil _)
    · exact hcur
  | cons e rest ih =>
    intro db hinv hstart
    rw [List.foldl_cons]
    have hinv' := rollbackStep_preserves_tblinv isMatch tx db e t hinv
    rcases hstart with hmem | hcur
    · rcases List.mem_cons.mp hmem with rfl | hrest
      · exact ih _ hinv' (Or.inr (rollbackStep_hit isMatch tx snap db t id r
          hsnap hr hrid hinv))
      · exact ih _ hinv' (Or.inl hrest)
    · exact ih _ hinv' (Or.inr (rollbackStep_preserves_target isMatch tx snap
        db e t id r hsnap hwf hr hrid hinv hcur))

/-- On the empty wait-for graph, the deadlock search finds nothing. -/
theorem hasDeadlock_nil (txId : Nat) : hasDeadlock [] txId = false := by
  rw [hasDeadlock]
  rw [show graphNeighbors [] txId = [] from rfl]
  rw [detectCycleFrom]

/-- `CommitGuard::commit` consumes the transaction before calling
`commit_internal`, so the guard's `Drop` impl finds `tx = None` and never
rolls back: committing through the guard returns exactly what
`commit_internal` returns, on success and on failure alike. -/
theorem commit_eq_commitInternal
    (isMatch : String → String → Except String Bool) (db : Database)
    (tm : TransactionManager) (tx : Transaction) (env : CommitEnv) :
    DBEngine.commit isMatch db tm tx env =
      DBEngine.commitInternal isMatch db tm tx env := by
  rcases h : DBEngine.commitInternal isMatch db tm tx env with ⟨db1, tm1, res⟩
  cases res with
  | none => simp [DBEngine.commit, commitGuardCommit, commitGuardDrop, h]
  | some e => simp [DBEngine.commit, commitGuardCommit, commitGuardDrop, h]

/-- Claim C1 counterexample: a sequential ReadCommitted transaction (no
snapshot) deletes the committed record 1 of table `T` and also inserts into
a table `U` that does not exist; commit applies the delete, then fails with
the missing-table error, and no rollback happens at all — `commit` consumed
the transaction before `commit_internal`, so the guard's `Drop` has nothing
to roll back — leaving record 1 of `T`, present before the transaction,
gone after the failed commit; the claim that no record of `T` changes on
account of the failed transaction is false at this input. -/
theorem claim1_counterexample :
    ((DBEngine.commit trivialIsMatch cexDb cexTm cexTx cexEnv).2.2.isSome
      = true) ∧
    ((DBEngine.commit trivialIsMatch cexDb cexTm cexTx
      cexEnv).1.lookupRecord "T" 1 = none) ∧
    (cexDb.lookupRecord "T" 1 = some cexRecord) := by
  have hdl2 : hasDeadlock cexTm.waitForGraph cexTx.id = false :=
    hasDeadlock_nil 7
  have hci : DBEngine.commitInternal trivialIsMatch cexDb cexTm cexTx cexEnv =
      (Database.mk .InMemory [("T", Table.mk [] (TableSchema.mk "T" [] 0))],
        TransactionManager.mk [] [] (TransactionConfig.mk 30 3 100),
        some ("Table not found: " ++ "U")) := by
    rw [DBEngine.commitInternal, hdl2]
    decide
  have hco : DBEngine.commit trivialIsMatch cexDb cexTm cexTx cexEnv =
      (Database.mk .InMemory [("T", Table.mk [] (TableSchema.mk "T" [] 0))],
        TransactionManager.mk [] [] (TransactionConfig.mk 30 3 100),
        some ("Table not found: " ++ "U")) := by
    rw [commit_eq_commitInternal, hci]
  refine ⟨?_, ?_, ?_⟩
  · rw [hco]; decide
  · rw [hco]; decide
  · decide

/-- Claim C1 (amended): the claimed atomicity fails on both counts.  A
failed `commit` performs no rollback whatsoever: `CommitGuard::commit`
takes the transaction out of the guard before running `commit_internal`,
so the guard's `Drop` finds no transaction and `commit` returns exactly
the state `commit_internal`'s failure left behind, partial writes included
(first conjunct; the counterexample exhibits a lost record).  Only the
explicit `rollback(tx)`, whose body is `rollback_failed_commit` — reached
from the guard only if it is dropped with `commit` never called — restores
anything, and then only as far as the snapshot reaches: every `(table,
id)` of the write set whose prior record is present in the snapshot is
re-inserted (stated here for target tables whose schema declares no
fields, so the re-insert always succeeds) and is present afterwards with
its snapshot fields, version and timestamp (second conjunct).  Writes with
no snapshot counterpart — records newly inserted by the transaction, or
any write under an isolation level that takes no snapshot — are not undone
even by `rollback`. -/
theorem claim1_amended (isMatch : String → String → Except String Bool)
    (db : Database) (tm : TransactionManager) (tx : Transaction)
    (env : CommitEnv) (snap : Database) (t : String) (id : Nat) (r : Record)
    (hsnap : tx.snapshot = some snap)
    (hwf : ∀ p ∈ snap.tables, ∀ q ∈ p.2.data, q.2.id = q.1)
    (hmem : (t, id) ∈ tx.writeSet)
    (hr : (alistGet snap.tables t).bind (fun tb => tb.getRecord id) = some r)
    (hrid : r.id = id)
    (hinv : ∃ tbl, alistGet db.tables t = some tbl ∧ tbl.schema.fields = []) :
    (DBEngine.commit isMatch db tm tx env =
      DBEngine.commitInternal isMatch db tm tx env) ∧
    Database.lookupRecord (DBEngine.rollbackFailedCommit isMatch db tm tx).1
      t id = some r := by
  refine ⟨commit_eq_commitInternal isMatch db tm tx env, ?_⟩
  rw [DBEngine.rollbackFailedCommit]
  exact rollback_fold_restores isMatch tx snap t id r hsnap hwf hr hrid
    tx.writeSet db hinv (Or.inl hmem)

/-- Witness for claim C1 (amended): a failed commit of a Serializable
transaction that deleted record 1 keeps `commit_internal`'s state, while
the explicit rollback restores the snapshot copy of record 1. -/
theorem claim1_witness :
    (DBEngine.commit (fun _ _ => Except.ok true)
        (Database.mk .InMemory [("T", Table.mk [] (TableSchema.mk "T" [] 0))])
        (TransactionManager.mk [] [] (TransactionConfig.mk 30 3 100))
        (Transaction.mk 8 .Serializable []
          [("T", 1, Record.mk 1 [("name", .Str "a")] 1 5)] [] [("T", 1)]
          (some (Database.mk .InMemory
            [("T", Table.mk [(1, Record.mk 1 [("name", .Str "a")] 1 5)]
              (TableSchema.mk "T" [] 0))]))
          6 [] []) (CommitEnv.mk false 10 none) =
      DBEngine.commitInternal (fun _ _ => Except.ok true)
        (Database.mk .InMemory [("T", Table.mk [] (TableSchema.mk "T" [] 0))])
        (TransactionManager.mk [] [] (TransactionConfig.mk 30 3 100))
        (Transaction.mk 8 .Serializable []
          [("T", 1, Record.mk 1 [("name", .Str "a")] 1 5)] [] [("T", 1)]
          (some (Database.mk .InMemory
            [("T", Table.mk [(1, Record.mk 1 [("name", .Str "a")] 1 5)]
              (TableSchema.mk "T" [] 0))]))
          6 [] []) (CommitEnv.mk false 10 none)) ∧
    Database.lookupRecord
      (DBEngine.rollbackFailedCommit (fun _ _ => Except.ok true)
        (Database.mk .InMemory [("T", Table.mk [] (TableSchema.mk "T" [] 0))])
        (TransactionManager.mk [] [] (TransactionConfig.mk 30 3 100))
        (Transaction.mk 8 .Serializable []
          [("T", 1, Record.mk 1 [("name", .Str "a")] 1 5)] [] [("T", 1)]
          (some (Database.mk .InMemory
            [("T", Table.mk [(1, Record.mk 1 [("name", .Str "a")] 1 5)]
              (TableSchema.mk "T" [] 0))]))
          6 [] [])).1 "T" 1 = some (Record.mk 1 [("name", .Str "a")] 1 5) := by
  apply claim1_amended (fun _ _ => Except.ok true)
    (Database.mk .InMemory [("T", Table.mk [] (TableSchema.mk "T" [] 0))])
    (TransactionManager.mk [] [] (TransactionConfig.mk 30 3 100))
    (Transaction.mk 8 .Serializable []
      [("T", 1, Record.mk 1 [("name", .Str "a")] 1 5)] [] [("T", 1)]
      (some (Database.mk .InMemory
        [("T", Table.mk [(1, Record.mk 1 [("name", .Str "a")] 1 5)]
          (TableSchema.mk "T" [] 0))]))
      6 [] []) (CommitEnv.mk false 10 none)
    (Database.mk .InMemory
      [("T", Table.mk [(1, Record.mk 1 [("name", .Str "a")] 1 5)]
        (TableSchema.mk "T" [] 0))])
    "T" 1 (Record.mk 1 [("name", .Str "a")] 1 5) (by decide) (by decide)
    (by decide) (by decide) (by decide)
  exact ⟨Table.mk [] (TableSchema.mk "T" [] 0), by decide, by decide⟩

/-! ## Claims C2 and C7: WAL checksums and recovery filtering -/

theorem alistGet_cons {κ α : Type} [DecidableEq κ] (p : κ × α)
    (rest : List (κ × α)) (k : κ) :
    alistGet (p :: rest) k = if k = p.1 then some p.2 else alistGet rest k :=
  rfl

theorem list_map_id_on {α : Type} (f : α → α) (l : List α)
    (h : ∀ x ∈ l, f x = x) : l.map f = l := by
  induction l with
  | nil => rfl
  | cons x rest ih =>
    rw [List.map_cons, h x (List.mem_cons_self _ _),
      ih (fun y hy => h y (List.mem_cons_of_mem _ hy))]

theorem filter_insertSortedByKey (p : String × Json → Bool) (q : String × Json)
    (hq : p q = false) (l : List (String × Json)) :
    (insertSortedByKey q l).filter p = l.filter p := by
  induction l with
  | nil => simp [insertSortedByKey, List.filter, hq]
  | cons x rest ih =>
    rw [insertSortedByKey]
    by_cases hle : strLe q.1 x.1 = true
    · rw [if_pos hle]
      rw [List.filter_cons_of_neg (by simp [hq])]
    · rw [if_neg hle]
      by_cases hx : p x = true
      · rw [List.filter_cons_of_pos hx, List.filter_cons_of_pos hx, ih]
      · rw [List.filter_cons_of_neg (by simpa using hx),
          List.filter_cons_of_neg (by simpa using hx), ih]

theorem filter_map_statusReplace (v : Json) (l : List (String × Json)) :
    ((l.map (fun p => if p.1 = "status" then (p.1, v) else p)).filter
      canonicalKeep) = l.filter canonicalKeep := by
  induction l with
  | nil => rfl
  | cons x rest ih =>
    rw [List.map_cons]
    by_cases hx : x.1 = "status"
    · rw [if_pos hx]
      rw [List.filter_cons_of_neg (by simp [canonicalKeep, hx]),
        List.filter_cons_of_neg (by simp [canonicalKeep, hx])]
      exact ih
    · rw [if_neg hx]
      by_cases hp : canonicalKeep x = true
      · rw [List.filter_cons_of_pos hp, List.filter_cons_of_pos hp]
        exact congrArg (List.cons x) ih
      · rw [List.filter_cons_of_neg (by simpa using hp),
          List.filter_cons_of_neg (by simpa using hp)]
        exact ih

theorem strLe_refl (a : String) : strLe a a = true := by
  rw [strLe]
  induction a.data with
  | nil => rfl
  | cons c rest ih => simp [charListLe, ih]

theorem alistGet_insertSortedByKey_self (k : String) (v : Json)
    (l : List (String × Json)) :
    alistGet (insertSortedByKey (k, v) l) k = some v := by
  induction l with
  | nil =>
    rw [insertSortedByKey, alistGet_cons]
    simp
  | cons q rest ih =>
    rw [insertSortedByKey]
    by_cases hle : strLe k q.1 = true
    · rw [if_pos hle, alistGet_cons]
      simp
    · rw [if_neg hle]
      have hne : k ≠ q.1 := fun he => hle (he ▸ strLe_refl k)
      rw [alistGet_cons, if_neg hne]
      exact ih

theorem alistGet_map_keyReplace (k : String) (v : Json)
    (l : List (String × Json)) (h : alistContains l k = true) :
    alistGet (l.map (fun p => if p.1 = k then (p.1, v) else p)) k = some v := by
  induction l with
  | nil => simp [alistContains, alistGet] at h
  | cons q rest ih =>
    rw [List.map_cons]
    by_cases hq : q.1 = k
    · rw [if_pos hq, alistGet_cons, if_pos hq.symm]
    · rw [if_neg hq, alistGet_cons, if_neg (fun hc => hq hc.symm)]
      apply ih
      rw [alistContains, alistGet_cons, if_neg (fun hc => hq hc.symm)] at h
      exact h

/-- Replacing the `status` value of a JSON object leaves
`calculate_entry_checksum` unchanged: the hashed canonical form excludes
the `status` field. -/
theorem calculateEntryChecksum_setStatus (kvs : List (String × Json))
    (v : Json) :
    calculateEntryChecksum (jsonSetKey (.obj kvs) "status" v) =
      calculateEntryChecksum (.obj kvs) := by
  rw [jsonSetKey]
  by_cases hc : alistContains kvs "status" = true
  · rw [if_pos hc]
    rw [calculateEntryChecksum, calculateEntryChecksum]
    rw [Json.objFields, Json.objFields]
    rw [filter_map_statusReplace]
  · rw [if_neg hc]
    rw [calculateEntryChecksum, calculateEntryChecksum]
    rw [Json.objFields, Json.objFields]
    rw [filter_insertSortedByKey _ ("status", v) (by simp [canonicalKeep]) kvs]

/-- Adding the `checksum` field leaves `calculate_entry_checksum`
unchanged: the hashed canonical form excludes it. -/
theorem calculateEntryChecksum_mkWalEntry (d : TxLogData) :
    calculateEntryChecksum (mkWalEntry d) =
      calculateEntryChecksum (.obj (mkWalEntryBase d)) := by
  rw [mkWalEntry, calculateEntryChecksum, calculateEntryChecksum]
  rw [Json.objFields, Json.objFields]
  rw [filter_insertSortedByKey _ _ (by simp [canonicalKeep]) (mkWalEntryBase d)]

theorem mkWalEntry_match (d : TxLogData) :
    (jsonGet (mkWalEntry d) "tx_id").asNat = some d.txId := rfl

theorem mkWalEntry_checksum_field (d : TxLogData) :
    jsonGet (mkWalEntry d) "checksum" =
      .num (calculateEntryChecksum (.obj (mkWalEntryBase d))) := rfl

theorem jsonGet_jsonSetKey_self (kvs : List (String × Json)) (k : String)
    (v : Json) : jsonGet (jsonSetKey (.obj kvs) k v) k = v := by
  rw [jsonSetKey]
  by_cases hc : alistContains kvs k = true
  · rw [if_pos hc, jsonGet]
    rw [alistGet_map_keyReplace k v kvs hc]
    rfl
  · rw [if_neg hc, jsonGet]
    rw [alistGet_insertSortedByKey_self k v kvs]
    rfl

theorem marked_entry_txid (d : TxLogData) :
    (jsonGet (jsonSetKey (mkWalEntry d) "status" (.str "completed"))
      "tx_id").asNat = some d.txId := rfl

theorem marked_entry_checksum (d : TxLogData) :
    jsonGet (jsonSetKey (mkWalEntry d) "status" (.str "completed"))
      "checksum" =
      .num (calculateEntryChecksum (.obj (mkWalEntryBase d))) := rfl

theorem calculateEntryChecksum_marked (d : TxLogData) :
    calculateEntryChecksum
        (jsonSetKey (mkWalEntry d) "status" (.str "completed")) =
      calculateEntryChecksum (.obj (mkWalEntryBase d)) := by
  have he : mkWalEntry d = .obj (insertSortedByKey
      ("checksum", .num (calculateEntryChecksum (.obj (mkWalEntryBase d))))
      (mkWalEntryBase d)) := rfl
  rw [he, calculateEntryChecksum_setStatus, ← he,
    calculateEntryChecksum_mkWalEntry]

theorem mark_found (wal : List Json) (d : TxLogData) :
    ((wal ++ [mkWalEntry d]).any
      (fun e => (jsonGet e "tx_id").asNat = some d.txId)) = true := by
  rw [List.any_append]
  have h1 : (List.any [mkWalEntry d]
      (fun e => (jsonGet e "tx_id").asNat = some d.txId)) = true := by
    simp [mkWalEntry_match d]
  rw [h1, Bool.or_true]

/-- Claim C2: the checksum stored in a WAL entry written by
`log_transaction` equals the SHA-256 hash of the entry's canonical JSON —
the object with `checksum` and `status` removed and the remaining keys
sorted — truncated to its first eight bytes big-endian; consequently
`is_transaction_valid` still returns true after
`mark_transaction_complete` rewrites the entry's status, since `status` is
excluded from the hashed form.  (The freshness hypothesis says no earlier
WAL line already carries this transaction id, so the validity scan hits
the entry just written.) -/
theorem claim2_wal_checksum (wal : List Json) (d : TxLogData)
    (hfresh : ∀ e ∈ wal, (jsonGet e "tx_id").asNat ≠ some d.txId) :
    (jsonGet (mkWalEntry d) "checksum" =
      .num (sha256First8 (Json.render (.obj (sortByKey
        ((mkWalEntry d).objFields.filter canonicalKeep)))))) ∧
    (∀ wal'', markTransactionComplete (logTransaction wal d).1 d.txId =
        Except.ok wal'' →
      isTransactionValid wal'' d.txId = Except.ok true) := by
  constructor
  · show jsonGet (mkWalEntry d) "checksum" =
      .num (calculateEntryChecksum (mkWalEntry d))
    rw [calculateEntryChecksum_mkWalEntry]
    exact mkWalEntry_checksum_field d
  · intro wal'' hmark
    have hwal' : (logTransaction wal d).1 = wal ++ [mkWalEntry d] := rfl
    rw [hwal', markTransactionComplete, mark_found wal d] at hmark
    rw [show (!true) = false from rfl] at hmark
    rw [if_neg Bool.false_ne_true] at hmark
    injection hmark with hmark
    have hmap : (wal ++ [mkWalEntry d]).map (fun e =>
        if (jsonGet e "tx_id").asNat = some d.txId then
          jsonSetKey e "status" (.str "completed")
        else e) =
        wal ++ [jsonSetKey (mkWalEntry d) "status" (.str "completed")] := by
      rw [List.map_append]
      congr 1
      · exact list_map_id_on _ _ (fun e he => if_neg (hfresh e he))
      · simp [mkWalEntry_match d]
    rw [hmap] at hmark
    subst hmark
    rw [isTransactionValid]
    have hfindw : List.find?
        (fun e => (jsonGet e "tx_id").asNat = some d.txId) wal = none := by
      rw [List.find?_eq_none]
      intro e he
      simpa using hfresh e he
    have hfind : (wal ++ [jsonSetKey (mkWalEntry d) "status"
          (.str "completed")]).find?
        (fun e => (jsonGet e "tx_id").asNat = some d.txId) =
        some (jsonSetKey (mkWalEntry d) "status" (.str "completed")) := by
      rw [List.find?_append, hfindw]
      simp [marked_entry_txid d]
    rw [hfind]
    simp only []
    rw [marked_entry_checksum d]
    simp only [Json.asNat]
    rw [calculateEntryChecksum_marked d]
    simp

/-- Witness for claim C2: logging then marking a transaction on the empty
log, with opaque JSON payloads, leaves a log that still validates. -/
theorem claim2_witness :
    isTransactionValid
      [jsonSetKey (mkWalEntry (TxLogData.mk 11 3 (.arr []) (.arr []) (.arr [])
        (.arr []) (.arr []))) "status" (.str "completed")] 11 =
      Except.ok true :=
  (claim2_wal_checksum []
    (TxLogData.mk 11 3 (.arr []) (.arr []) (.arr []) (.arr []) (.arr []))
    (fun e he => absurd he (List.not_mem_nil e))).2
    [jsonSetKey (mkWalEntry (TxLogData.mk 11 3 (.arr []) (.arr []) (.arr [])
      (.arr []) (.arr []))) "status" (.str "completed")] rfl

theorem load_pending_excludes (T : Nat) :
    ∀ (l : List Json) (ids : List Nat),
      (∀ e ∈ l, (jsonGet e "tx_id").asNat = some T →
        (jsonGet e "status").asStr = some "completed") →
      loadTransactionIds .RecoverPending l = some ids → T ∉ ids := by
  intro l
  induction l with
  | nil =>
    intro ids _ hload
    rw [loadTransactionIds] at hload
    injection hload with h
    subst h
    exact List.not_mem_nil T
  | cons e rest ih =>
    intro ids hcomp hload
    rw [loadTransactionIds] at hload
    by_cases hst : (jsonGet e "status").asStr = some "pending"
    · rw [if_neg (by simp [hst])] at hload
      cases hid : (jsonGet e "tx_id").asNat with
      | none => rw [hid] at hload; exact Option.noConfusion hload
      | some n =>
        rw [hid] at hload
        cases hrec : loadTransactionIds .RecoverPending rest with
        | none => rw [hrec] at hload; exact Option.noConfusion hload
        | some rest' =>
          rw [hrec] at hload
          have hload' : some (n :: rest') = some ids := hload
          injection hload' with h
          subst h
          have hne : n ≠ T := by
            intro hc
            subst hc
            have hco := hcomp e (List.mem_cons_self _ _) hid
            rw [hst] at hco
            injection hco with h2
            exact absurd h2 (by decide)
          have hrest : T ∉ rest' := ih rest'
            (fun e' he' => hcomp e' (List.mem_cons_of_mem _ he')) hrec
          intro hmem
          rcases List.mem_cons.mp hmem with h | h
          · exact hne h.symm
          · exact hrest h
    · rw [if_pos (by simp [hst])] at hload
      exact ih ids (fun e' he' => hcomp e' (List.mem_cons_of_mem _ he')) hload

/-- Claim C7: WAL round trip — after `log_transaction` appends the entry,
`mark_transaction_complete` on the transaction's id succeeds and rewrites
the status of every matching entry to `completed`; any subsequent
`load_transactions` under the `RecoverPending` policy then returns no
transaction with that id, because every entry carrying it is now
non-`pending` and is skipped. -/
theorem claim7_wal_round_trip (wal : List Json) (d : TxLogData) :
    (markTransactionComplete (logTransaction wal d).1 d.txId).isOk = true ∧
    (∀ wal'' ids,
      markTransactionComplete (logTransaction wal d).1 d.txId =
        Except.ok wal'' →
      loadTransactions wal'' .RecoverPending = some ids →
      d.txId ∉ ids) := by
  constructor
  · rw [show (logTransaction wal d).1 = wal ++ [mkWalEntry d] from rfl,
      markTransactionComplete, mark_found wal d]
    rfl
  · intro wal'' ids hmark hload
    rw [show (logTransaction wal d).1 = wal ++ [mkWalEntry d] from rfl,
      markTransactionComplete, mark_found wal d] at hmark
    rw [show (!true) = false from rfl] at hmark
    rw [if_neg Bool.false_ne_true] at hmark
    injection hmark with hmark
    subst hmark
    rw [loadTransactions] at hload
    rw [if_neg (show RestorePolicy.RecoverPending ≠ RestorePolicy.Discard
      from by decide)] at hload
    refine load_pending_excludes d.txId _ ids ?hs hload
    intro e' he' htx
    obtain ⟨e, he, hfe⟩ := List.mem_map.mp he'
    by_cases hc : (jsonGet e "tx_id").asNat = some d.txId
    · rw [if_pos hc] at hfe
      subst hfe
      cases e with
      | obj kvs =>
        rw [jsonGet_jsonSetKey_self kvs "status" (.str "completed")]
        rfl
      | null => exact Option.noConfusion hc
      | boolVal b => exact Option.noConfusion hc
      | num n => exact Option.noConfusion hc
      | str s => exact Option.noConfusion hc
      | arr l => exact Option.noConfusion hc
    · rw [if_neg hc] at hfe
      subst hfe
      exact absurd htx hc

/-- Witness for claim C7: the second component, applied to the one-entry
log of an opaque transaction; marking it leaves nothing pending, so the
recovered id list is empty. -/
theorem claim7_witness :
    (markTransactionComplete
      (logTransaction [] (TxLogData.mk 11 3 (.arr []) (.arr []) (.arr [])
        (.arr []) (.arr []))).1 11).isOk = true ∧
    (11 : Nat) ∉ ([] : List Nat) :=
  ⟨(claim7_wal_round_trip []
      (TxLogData.mk 11 3 (.arr []) (.arr []) (.arr []) (.arr []) (.arr []))).1,
    (claim7_wal_round_trip []
      (TxLogData.mk 11 3 (.arr []) (.arr []) (.arr []) (.arr []) (.arr []))).2
      [jsonSetKey (mkWalEntry (TxLogData.mk 11 3 (.arr []) (.arr []) (.arr [])
        (.arr []) (.arr []))) "status" (.str "completed")] [] rfl rfl⟩

theorem detectCycleFrom_nil (g : List (Nat × List Nat)) (V P : List Nat) :
    (detectCycleFrom g [] V P).val = (false, V) := by
  rw [detectCycleFrom]

theorem detectCycleFrom_cons_vis_path (g : List (Nat × List Nat))
    (V P : List Nat) (n : Nat) (rest : List Nat) (hn : n ∈ V) (hp : n ∈ P) :
    (detectCycleFrom g (n :: rest) V P).val = (true, V) := by
  rw [detectCycleFrom, dif_pos hn, if_pos hp]

theorem detectCycleFrom_cons_vis_nopath (g : List (Nat × List Nat))
    (V P : List Nat) (n : Nat) (rest : List Nat) (hn : n ∈ V) (hp : n ∉ P) :
    (detectCycleFrom g (n :: rest) V P).val =
      (detectCycleFrom g rest V P).val := by
  rw [detectCycleFrom, dif_pos hn, if_neg hp]

theorem detectCycleFrom_cons_new_true (g : List (Nat × List Nat))
    (V P : List Nat) (n : Nat) (rest : List Nat) (hn : n ∉ V)
    (h1 : (detectCycleFrom g (graphNeighbors g n) (n :: V) (n :: P)).val.1
      = true) :
    (detectCycleFrom g (n :: rest) V P).val =
      (true,
       (detectCycleFrom g (graphNeighbors g n) (n :: V) (n :: P)).val.2) := by
  rw [detectCycleFrom, dif_neg hn]
  simp [h1]

theorem detectCycleFrom_cons_new_false (g : List (Nat × List Nat))
    (V P : List Nat) (n : Nat) (rest : List Nat) (hn : n ∉ V)
    (h1 : (detectCycleFrom g (graphNeighbors g n) (n :: V) (n :: P)).val.1
      = false) :
    (detectCycleFrom g (n :: rest) V P).val =
      (detectCycleFrom g rest
        (detectCycleFrom g (graphNeighbors g n) (n :: V) (n :: P)).val.2
        P).val := by
  rw [detectCycleFrom, dif_neg hn]
  simp [h1]

theorem pathFrom_reach (g : List (Nat × List Nat)) (s : Nat) :
    ∀ p, pathFrom g s p → ∀ m ∈ p, Relation.ReflTransGen (Edge g) s m
  | [], h => absurd h (by simp [pathFrom])
  | [a], h => by
    intro m hm
    rw [show a = s from h] at hm
    rw [List.mem_singleton.mp hm]
  | a :: b :: rest, h => by
    intro m hm
    obtain ⟨e, hp⟩ := h
    rcases List.mem_cons.mp hm with rfl | hm'
    · exact (pathFrom_reach g s (b :: rest) hp b (List.mem_cons_self _ _)).tail e
    · exact pathFrom_reach g s (b :: rest) hp m hm'

theorem pathFrom_mem_to_head (g : List (Nat × List Nat)) (s : Nat) :
    ∀ t h, pathFrom g s (h :: t) → ∀ m ∈ h :: t,
      Relation.ReflTransGen (Edge g) m h
  | [], h0, _ => by
    intro m hm
    rw [List.mem_singleton.mp hm]
  | b :: rest, h0, hpf => by
    intro m hm
    obtain ⟨e, hp⟩ := hpf
    rcases List.mem_cons.mp hm with rfl | hm'
    · exact Relation.ReflTransGen.refl
    · exact (pathFrom_mem_to_head g s rest b hp m hm').tail e

theorem detectCycle_true_reaches (g : List (Nat × List Nat)) (s : Nat) :
    ∀ ns V P, pathFrom g s P →
      (∀ n ∈ ns, Edge g P.headI n) →
      (detectCycleFrom g ns V P).val.1 = true →
      ReachesCycle g s := by
  intro ns V P
  induction ns, V, P using detectCycleFrom.induct g with
  | case1 V P =>
    intro _ _ htrue
    rw [detectCycleFrom_nil] at htrue
    exact Bool.noConfusion htrue
  | case2 V P n rest hn hp =>
    intro hpf hns _
    cases P with
    | nil => exact absurd hpf (by simp [pathFrom])
    | cons h t =>
      have e : Edge g h n := hns n (List.mem_cons_self _ _)
      have rtg : Relation.ReflTransGen (Edge g) n h :=
        pathFrom_mem_to_head g s t h hpf n hp
      exact ⟨n, pathFrom_reach g s (h :: t) hpf n hp,
        Relation.TransGen.tail' rtg e⟩
  | case3 V P n rest hn hp ih =>
    intro hpf hns htrue
    rw [detectCycleFrom_cons_vis_nopath g V P n rest hn hp] at htrue
    exact ih hpf (fun m hm => hns m (List.mem_cons_of_mem _ hm)) htrue
  | case4 V P n rest hn r1 h1 ih =>
    intro hpf hns _
    cases P with
    | nil => exact absurd hpf (by simp [pathFrom])
    | cons h t =>
      have e : Edge g h n := hns n (List.mem_cons_self _ _)
      exact ih ⟨e, hpf⟩ (fun m hm => hm) h1
  | case5 V P n rest hn r1 h1 ih1 ih2 =>
    intro hpf hns htrue
    have h1' : (detectCycleFrom g (graphNeighbors g n) (n :: V)
        (n :: P)).val.1 = false := by
      revert h1
      cases (detectCycleFrom g (graphNeighbors g n) (n :: V) (n :: P)).val.1
      · intro _; rfl
      · intro h1; exact absurd rfl h1
    rw [detectCycleFrom_cons_new_false g V P n rest hn h1'] at htrue
    exact ih2 hpf (fun m hm => hns m (List.mem_cons_of_mem _ hm)) htrue

theorem safe_rtg (g : List (Nat × List Nat)) {V P : List Nat}
    (hS : ∀ b ∈ V, b ∉ P → ∀ m ∈ graphNeighbors g b, m ∈ V ∧ m ∉ P)
    {b m : Nat} (hb : b ∈ V) (hbp : b ∉ P)
    (h : Relation.ReflTransGen (Edge g) b m) : m ∈ V ∧ m ∉ P := by
  induction h with
  | refl => exact ⟨hb, hbp⟩
  | tail hrt he ih => exact hS _ ih.1 ih.2 _ he

theorem safe_push (g : List (Nat × List Nat)) {V P : List Nat} {n : Nat}
    (hS : Safe g V P) (hn : n ∉ V) : Safe g (n :: V) (n :: P) := by
  constructor
  · intro b hb hbp m hm
    have hb' : b ∈ V := by
      rcases List.mem_cons.mp hb with rfl | h
      · exact absurd (List.mem_cons_self _ _) hbp
      · exact h
    have hbp' : b ∉ P := fun h => hbp (List.mem_cons_of_mem _ h)
    obtain ⟨hmV, hmP⟩ := hS.1 b hb' hbp' m hm
    refine ⟨List.mem_cons_of_mem _ hmV, ?_⟩
    intro hc
    rcases List.mem_cons.mp hc with rfl | h
    · exact hn hmV
    · exact hmP h
  · intro b hb hbp
    have hb' : b ∈ V := by
      rcases List.mem_cons.mp hb with rfl | h
      · exact absurd (List.mem_cons_self _ _) hbp
      · exact h
    have hbp' : b ∉ P := fun h => hbp (List.mem_cons_of_mem _ h)
    exact hS.2 b hb' hbp'

theorem safe_pop (g : List (Nat × List Nat)) {V P : List Nat} {n : Nat}
    (hS : Safe g V (n :: P)) (hnV : n ∈ V)
    (hnbrs : ∀ m ∈ graphNeighbors g n, m ∈ V ∧ m ∉ n :: P) :
    Safe g V P := by
  constructor
  · intro b hb hbp m hm
    by_cases hbn : b = n
    · subst hbn
      obtain ⟨hmV, hmP⟩ := hnbrs m hm
      exact ⟨hmV, fun h => hmP (List.mem_cons_of_mem _ h)⟩
    · have hbp' : b ∉ n :: P := by
        intro hc
        rcases List.mem_cons.mp hc with rfl | h
        · exact hbn rfl
        · exact hbp h
      obtain ⟨hmV, hmP⟩ := hS.1 b hb hbp' m hm
      exact ⟨hmV, fun h => hmP (List.mem_cons_of_mem _ h)⟩
  · intro b hb hbp ht
    by_cases hbn : b = n
    · subst hbn
      obtain ⟨c, e, rtg⟩ := (Relation.TransGen.head'_iff).mp ht
      obtain ⟨hcV, hcP⟩ := hnbrs c e
      exact (safe_rtg g hS.1 hcV hcP rtg).2 (List.mem_cons_self _ _)
    · have hbp' : b ∉ n :: P := by
        intro hc
        rcases List.mem_cons.mp hc with rfl | h
        · exact hbn rfl
        · exact hbp h
      exact hS.2 b hb hbp' ht

theorem detectCycle_false_spec (g : List (Nat × List Nat)) :
    ∀ ns V P, (∀ x ∈ P, x ∈ V) → Safe g V P →
      (detectCycleFrom g ns V P).val.1 = false →
      (∀ n ∈ ns, n ∈ (detectCycleFrom g ns V P).val.2 ∧ n ∉ P) ∧
      Safe g (detectCycleFrom g ns V P).val.2 P := by
  intro ns V P
  induction ns, V, P using detectCycleFrom.induct g with
  | case1 V P =>
    intro _ hS _
    rw [detectCycleFrom_nil]
    exact ⟨fun n hn => absurd hn (List.not_mem_nil n), hS⟩
  | case2 V P n rest hn hp =>
    intro _ _ hfalse
    rw [detectCycleFrom_cons_vis_path g V P n rest hn hp] at hfalse
    exact Bool.noConfusion hfalse
  | case3 V P n rest hn hp ih =>
    intro hPV hS hfalse
    rw [detectCycleFrom_cons_vis_nopath g V P n rest hn hp] at hfalse ⊢
    obtain ⟨post1, post2⟩ := ih hPV hS hfalse
    refine ⟨?_, post2⟩
    intro m hm
    rcases List.mem_cons.mp hm with rfl | hm'
    · exact ⟨(detectCycleFrom g rest V P).property m hn, hp⟩
    · exact post1 m hm'
  | case4 V P n rest hn r1 h1 ih =>
    intro _ _ hfalse
    rw [detectCycleFrom_cons_new_true g V P n rest hn h1] at hfalse
    exact Bool.noConfusion hfalse
  | case5 V P n rest hn r1 h1 ih1 ih2 =>
    intro hPV hS hfalse
    have h1' : (detectCycleFrom g (graphNeighbors g n) (n :: V)
        (n :: P)).val.1 = false := by
      revert h1
      cases (detectCycleFrom g (graphNeighbors g n) (n :: V) (n :: P)).val.1
      · intro _; rfl
      · intro h1; exact absurd rfl h1
    rw [detectCycleFrom_cons_new_false g V P n rest hn h1'] at hfalse ⊢
    have hP1 : ∀ x ∈ n :: P, x ∈ n :: V := by
      intro x hx
      rcases List.mem_cons.mp hx with rfl | h
      · exact List.mem_cons_self _ _
      · exact List.mem_cons_of_mem _ (hPV x h)
    obtain ⟨p1a, p1b⟩ := ih1 hP1 (safe_push g hS hn) h1'
    have hnr1 : n ∈ (detectCycleFrom g (graphNeighbors g n) (n :: V)
        (n :: P)).val.2 :=
      (detectCycleFrom g (graphNeighbors g n) (n :: V) (n :: P)).property n
        (List.mem_cons_self _ _)
    have hS2 : Safe g (detectCycleFrom g (graphNeighbors g n) (n :: V)
        (n :: P)).val.2 P :=
      safe_pop g p1b hnr1 p1a
    have hPV2 : ∀ x ∈ P, x ∈ (detectCycleFrom g (graphNeighbors g n)
        (n :: V) (n :: P)).val.2 := by
      intro x hx
      exact (detectCycleFrom g (graphNeighbors g n) (n :: V)
        (n :: P)).property x (List.mem_cons_of_mem _ (hPV x hx))
    obtain ⟨post1, post2⟩ := ih2 hPV2 hS2 hfalse
    refine ⟨?_, post2⟩
    intro m hm
    rcases List.mem_cons.mp hm with rfl | hm'
    · refine ⟨(detectCycleFrom g rest _ P).property m hnr1, ?_⟩
      exact fun hc => hn (hPV m hc)
    · exact post1 m hm'

/-- Claim C5: for every wait-for graph and every transaction id,
`has_deadlock` returns true if and only if the graph contains a cycle
reachable from that id — soundness via the path invariant (a back-edge
into the current path closes a walk into a cycle), completeness via the
invariant that fully-explored nodes have fully-explored successors and lie
on no cycle; in particular `has_deadlock` is false everywhere on an
acyclic graph. -/
theorem claim5_deadlock_iff (g : List (Nat × List Nat)) (s : Nat) :
    hasDeadlock g s = true ↔ ReachesCycle g s := by
  constructor
  · intro htrue
    exact detectCycle_true_reaches g s (graphNeighbors g s) [s] [s]
      rfl (fun n hn => hn) htrue
  · intro hrc
    by_contra hfalse
    have hfalse' : hasDeadlock g s = false := by
      revert hfalse
      cases hasDeadlock g s
      · intro _; rfl
      · intro hf; exact absurd rfl hf
    rw [hasDeadlock] at hfalse'
    have hSafe0 : Safe g [s] [s] := by
      constructor
      · intro b hb hbp
        exact absurd (List.mem_singleton.mp hb ▸ List.mem_cons_self s []) hbp
      · intro b hb hbp _
        exact hbp (List.mem_singleton.mp hb ▸ List.mem_cons_self s [])
    obtain ⟨post1, post2⟩ := detectCycle_false_spec g (graphNeighbors g s)
      [s] [s] (fun x hx => hx) hSafe0 hfalse'
    obtain ⟨v, hrt, hcyc⟩ := hrc
    rcases Relation.ReflTransGen.cases_head hrt with rfl | ⟨c, e, rtg⟩
    · obtain ⟨c, e, rtg⟩ := (Relation.TransGen.head'_iff).mp hcyc
      obtain ⟨hcV, hcP⟩ := post1 c e
      have := safe_rtg g post2.1 hcV hcP rtg
      exact this.2 (List.mem_cons_self _ _)
    · obtain ⟨hcV, hcP⟩ := post1 c e
      have hv := safe_rtg g post2.1 hcV hcP rtg
      exact post2.2 v hv.1 hv.2 hcyc

end KinesisDB
